import Mathlib

/-!
Verification of the construction-tagging engine of `ars-legendi`
(`server/scripts/caesar_pipeline/tag_constructions.py`).

The Python module is shallowly embedded below.  Conventions:

* A UD token is a dictionary; the fields actually read by the tagger are
  embedded as the `Token` structure.  `tok.get(key)` returning `None` is
  modelled with `Option`.
* The morphological feature bag `feats` can be `None`, a UD pipe string,
  a dictionary, or some other encoding; the `Feats` inductive covers all
  four shapes (`flist` stands for a non-string, non-dict encoding, which
  Python treats element-wise for membership and which `feats_get` rejects).
* Python `head` values are integers unless the upstream JSON is malformed;
  `head : Option Int` uses `none` for a non-integer value
  (`isinstance(head, int)` failing) and `some h` otherwise.
* Confidence floats in the source are all exact hundredths
  (0.9, 0.88, ...); they are embedded as integer hundredths.
* Python string methods (`lower`, `strip`, `split`, `endswith`, `in`) are
  re-implemented over `List Char` so that all definitions reduce inside
  the kernel; they agree with Python on the ASCII corpus text.
-/

/-- ASCII lower-casing, matching Python `str.lower` on ASCII text. -/
def chLower (c : Char) : Char :=
  if 65 ≤ c.toNat ∧ c.toNat ≤ 90 then Char.ofNat (c.toNat + 32) else c

/-- Lower-case a string (ASCII). -/
def strLower (s : String) : String := String.mk (s.data.map chLower)

/-- Whitespace characters stripped by Python `str.strip`. -/
def isWsChar (c : Char) : Bool :=
  c = ' ' || c = '\t' || c = '\n' || c = '\r'

/-- Drop leading whitespace from a character list. -/
def dropWs : List Char → List Char
  | [] => []
  | c :: t => if isWsChar c then dropWs t else c :: t

/-- Python `str.strip`: remove whitespace from both ends. -/
def strStrip (s : String) : String :=
  String.mk (((dropWs ((dropWs s.data).reverse)).reverse))

/-- Split a character list at every occurrence of `c` (Python `str.split(c)`). -/
def splitChar (c : Char) : List Char → List (List Char)
  | [] => [[]]
  | x :: xs =>
    if x = c then [] :: splitChar c xs
    else
      match splitChar c xs with
      | [] => [[x]]
      | h :: t => (x :: h) :: t

/-- Split at the first occurrence of `c`, Python `str.split(c, 1)` when the
separator occurs; `none` when it does not (`c not in s`). -/
def splitFirst (c : Char) : List Char → Option (List Char × List Char)
  | [] => none
  | x :: xs =>
    if x = c then some ([], xs)
    else
      match splitFirst c xs with
      | some (a, b) => some (x :: a, b)
      | none => none

/-- Does list `l` start with list `p`? -/
def listStarts : List Char → List Char → Bool
  | _, [] => true
  | [], _ :: _ => false
  | a :: as, b :: bs => a = b && listStarts as bs

/-- Substring containment over character lists. -/
def listContainsSub (n : List Char) : List Char → Bool
  | [] => n.isEmpty
  | c :: t => listStarts (c :: t) n || listContainsSub n t

/-- Python `needle in haystack` for strings (substring containment). -/
def strContains (hay needle : String) : Bool :=
  listContainsSub needle.data hay.data

/-- Python `str.endswith`. -/
def strEnds (s suffix : String) : Bool :=
  listStarts s.data.reverse suffix.data.reverse

/-- Python `str.startswith`. -/
def strStarts (s pre : String) : Bool :=
  listStarts s.data pre.data

/-- The morphological feature bag of a token.  Upstream JSON may materialise
it as `None`, a UD pipe-separated string, a dictionary, or (malformed) some
other encoding; `flist` is the representative non-string, non-dict encoding
(a JSON array of strings). -/
inductive Feats where
  | fnone
  | fstr (s : String)
  | fdict (m : List (String × String))
  | flist (l : List String)
deriving Repr, DecidableEq, Inhabited

/-- Python truthiness of a feature bag (`not feats`). -/
def featsFalsy : Feats → Bool
  | .fnone => true
  | .fstr s => s.isEmpty
  | .fdict m => m.isEmpty
  | .flist l => l.isEmpty

/-- Python `feats or ""` (used by several helpers before calling the
accessors). -/
def featsOrEmpty (f : Feats) : Feats :=
  if featsFalsy f then .fstr "" else f

/-- Lookup inside a UD pipe string: scan `k=v` parts for the key
(`feats_get`'s string branch). -/
def featsParse (s : String) (key : String) : Option String :=
  (splitChar '|' s.data).findSome? fun part =>
    match splitFirst '=' part with
    | some (k, v) => if String.mk k = key then some (String.mk v) else none
    | none => none

/-- Source's `feats_get(feats, key)`: total feature accessor.  Absent bag, absent key
and non-dictionary encodings all yield `none` ("unspecified"). -/
def feats_get (feats : Feats) (key : String) : Option String :=
  if featsFalsy feats then none
  else
    match feats with
    | .fdict m => m.lookup key
    | .fstr s => featsParse s key
    | _ => none

/-- Source's `feats_has(feats, key, value)`: equality test on `feats_get`. -/
def feats_has (feats : Feats) (key value : String) : Bool :=
  feats_get feats key == some value

/-- Source's `get_feat` is a second copy of the accessor in the source (used by the
ablative-absolute detector); its logic is identical to `feats_get`. -/
def get_feat (feats : Feats) (key : String) : Option String :=
  if featsFalsy feats then none
  else
    match feats with
    | .fdict m => m.lookup key
    | .fstr s => featsParse s key
    | _ => none

/-- A dependency-parsed token as consumed by the tagger.  `head : none`
models a non-integer `head` value; a missing `"head"` key defaults to `0`
(`tok.get("head", 0)`). -/
structure Token where
  text : Option String := Option.none
  lemma_ : Option String := Option.none
  upos : Option String := Option.none
  feats : Feats := Feats.fnone
  head : Option Int := some 0
  deprel : Option String := Option.none
deriving Repr, DecidableEq, Inhabited

/-- Token access `tokens[i]`; the source only indexes in range, so the
default value is never observable. -/
def getTok (tokens : List Token) (i : Nat) : Token := tokens.getD i {}

/-- Source's `tok_text`: surface form, stripped (`(tok.get("text") or "").strip()`). -/
def tok_text (tok : Token) : String := strStrip (tok.text.getD "")

/-- Source's `tok_lemma`: lemma, stripped. -/
def tok_lemma (tok : Token) : String := strStrip (tok.lemma_.getD "")

/-- Source's `is_punct`: PUNCT part of speech or `punct` relation. -/
def is_punct (tok : Token) : Bool :=
  tok.upos == some "PUNCT" || tok.deprel == some "punct"

/-- Strong (segment) boundary punctuation. -/
def STRONG_PUNCT : List String := [".", ";", ":", "?", "!"]

/-- Source's `is_strong_boundary`: a PUNCT token whose surface is `. ; : ? !`. -/
def is_strong_boundary (tok : Token) : Bool :=
  if tok.upos == some "PUNCT" then STRONG_PUNCT.contains (tok_text tok)
  else false

/-- Source's `has_strong_boundary_between`: any strong punctuation strictly between
two indices. -/
def has_strong_boundary_between (tokens : List Token) (a b : Nat) : Bool :=
  let lo := min a b
  let hi := max a b
  (List.range' (lo + 1) (hi - lo - 1)).any fun k =>
    is_strong_boundary (getTok tokens k)

/-- Left scan of `segment_bounds`: walk down from `i` until the token just
below is strong punctuation. -/
def segLeft (tokens : List Token) : Nat → Nat
  | 0 => 0
  | l + 1 => if is_strong_boundary (getTok tokens l) then l + 1 else segLeft tokens l

/-- Right scan of `segment_bounds`; the counter is the number of remaining
loop iterations (`len(tokens) - 1 - i` at the call site), making the
recursion structural. -/
def segRightGo (tokens : List Token) : Nat → Nat → Nat
  | r, 0 => r
  | r, k + 1 =>
    if is_strong_boundary (getTok tokens (r + 1)) then r
    else segRightGo tokens (r + 1) k

/-- Source's `segment_bounds(tokens, i)`: maximal run around `i` not crossing strong
punctuation. -/
def segment_bounds (tokens : List Token) (i : Nat) : Nat × Nat :=
  (segLeft tokens i, segRightGo tokens i (tokens.length - 1 - i))

/-- Sentence-unit delimiters (`. ? !`). -/
def SENTENCE_END_PUNCT : List String := [".", "?", "!"]

/-- Source's `is_sentence_end_boundary`. -/
def is_sentence_end_boundary (tok : Token) : Bool :=
  if tok.upos == some "PUNCT" then SENTENCE_END_PUNCT.contains (tok_text tok)
  else false

/-- Left scan of `sentence_bounds`. -/
def sentLeft (tokens : List Token) : Nat → Nat
  | 0 => 0
  | l + 1 =>
    if is_sentence_end_boundary (getTok tokens l) then l + 1 else sentLeft tokens l

/-- Right scan of `sentence_bounds`. -/
def sentRightGo (tokens : List Token) : Nat → Nat → Nat
  | r, 0 => r
  | r, k + 1 =>
    if is_sentence_end_boundary (getTok tokens (r + 1)) then r
    else sentRightGo tokens (r + 1) k

/-- Source's `sentence_bounds(tokens, i)`: maximal run around `i` not crossing `. ? !`
(semicolons and colons do not break this tier). -/
def sentence_bounds (tokens : List Token) (i : Nat) : Nat × Nat :=
  (sentLeft tokens i, sentRightGo tokens i (tokens.length - 1 - i))

/-- Source's `is_nounish`: NOUN, PROPN or PRON. -/
def is_nounish (tok : Token) : Bool :=
  tok.upos == some "NOUN" || tok.upos == some "PROPN" || tok.upos == some "PRON"

/-- Source's `is_finite_verb`: VERB/AUX whose VerbForm is `Fin` or unspecified
(many trees omit `VerbForm=Fin`). -/
def is_finite_verb (tok : Token) : Bool :=
  let feats := featsOrEmpty tok.feats
  if !(tok.upos == some "VERB" || tok.upos == some "AUX") then false
  else
    let vf := feats_get feats "VerbForm"
    vf == Option.none || vf == some "Fin"

/-- Source's `is_infinitive`. -/
def is_infinitive (tok : Token) : Bool :=
  feats_has (featsOrEmpty tok.feats) "VerbForm" "Inf"

/-- Python truthiness of an optional feature value (`None` and `""` are
falsy). -/
def truthyS : Option String → Bool
  | some s => !s.isEmpty
  | none => false

/-- Source's `agree_gender_number`: mismatching only counts when both sides carry the
feature. -/
def agree_gender_number (a b : Token) : Bool :=
  let fa := featsOrEmpty a.feats
  let fb := featsOrEmpty b.feats
  let ga := feats_get fa "Gender"
  let gb := feats_get fb "Gender"
  let na := feats_get fa "Number"
  let nb := feats_get fb "Number"
  if truthyS ga && truthyS gb && ga != gb then false
  else if truthyS na && truthyS nb && na != nb then false
  else true

/-- The child index a token's `head` field points at, when the head value is
an integer `h` with `0 < h ≤ len(tokens)` (the guard used by
`build_children` and every detector before dereferencing a head). -/
def headTarget (tok : Token) (n : Nat) : Option Nat :=
  match tok.head with
  | Option.none => Option.none
  | some h =>
    if h ≤ 0 then Option.none
    else if h - 1 < (n : Int) then some (h - 1).toNat
    else Option.none

/-- Source's `build_children(tokens)`: children adjacency.  The Python loop starts
from `{i: [] for i in range(n)}` and appends `i` to `children[head-1]` in
ascending `i`, skipping non-integer, non-positive and out-of-range heads;
the result is, for each `h < n`, the ascending list of such `i`. -/
def build_children (tokens : List Token) : List (List Nat) :=
  (List.range tokens.length).map fun h =>
    (List.range tokens.length).filter fun i =>
      headTarget (getTok tokens i) tokens.length == some h

/-- Source's `children.get(cur, [])`. -/
def childGet (children : List (List Nat)) (i : Nat) : List Nat :=
  children.getD i []

/-- Filtering with a pointwise-stronger predicate never yields a longer
list. -/
theorem filter_mono_length {a : Type} (p q : a → Bool)
    (h : ∀ x, p x = true → q x = true) (l : List a) :
    (l.filter p).length ≤ (l.filter q).length := by
  induction l with
  | nil => exact Nat.le_refl _
  | cons b t ih =>
    simp only [List.filter_cons]
    cases hp : p b with
    | true =>
      have hq := h b hp
      simp only [hp, hq, if_true, List.length_cons]
      exact Nat.succ_le_succ ih
    | false =>
      cases hq : q b with
      | true =>
        simp only [hp, hq, Bool.false_eq_true, if_true, if_false, List.length_cons]
        exact Nat.le_succ_of_le ih
      | false =>
        simp only [hp, hq, Bool.false_eq_true, if_false]
        exact ih

/-- Filtering with a pointwise-stronger predicate that additionally rejects
a present element yields a strictly shorter list. -/
theorem filter_mono_length_lt {a : Type} (p q : a → Bool)
    (h : ∀ x, p x = true → q x = true) (el : a)
    (hp0 : p el = false) (hq1 : q el = true) :
    ∀ l : List a, el ∈ l → (l.filter p).length < (l.filter q).length := by
  intro l hel
  induction l with
  | nil => cases hel
  | cons b t ih =>
    simp only [List.filter_cons]
    rcases List.mem_cons.mp hel with rfl | hmem
    · simp only [hp0, hq1, Bool.false_eq_true, if_true, if_false, List.length_cons]
      exact Nat.lt_succ_of_le (filter_mono_length p q h t)
    · cases hp : p b with
      | true =>
        have hq := h b hp
        simp only [hp, hq, if_true, List.length_cons]
        exact Nat.succ_lt_succ (ih hmem)
      | false =>
        cases hq : q b with
        | true =>
          simp only [hp, hq, Bool.false_eq_true, if_true, if_false, List.length_cons]
          exact Nat.lt_succ_of_le (Nat.le_of_lt (ih hmem))
        | false =>
          simp only [hp, hq, Bool.false_eq_true, if_false]
          exact ih hmem

/-- Helper: marking a node outside `List.range n` as seen leaves the unseen
count over `List.range n` unchanged. -/
theorem filter_notseen_eq_of_ge (n cur : Nat) (seen : List Nat) (h : n ≤ cur) :
    (((List.range n).filter fun x => !(cur :: seen).contains x).length)
      = ((List.range n).filter fun x => !seen.contains x).length := by
  have hcong : ∀ x ∈ List.range n,
      (!(cur :: seen).contains x) = (!seen.contains x) := by
    intro x hx
    have hxn : x < n := List.mem_range.mp hx
    have hne : x ≠ cur := by omega
    simp [List.contains_cons, hne]
  rw [List.filter_congr hcong]

/-- The loop body of `in_subtree`: iterative depth-first traversal with a
visited set.  The Python `stack.pop()` takes the last element, and children
are appended in order; with the stack head modelling the Python stack top,
popping `cur` pushes `children.get(cur, []).reverse`.  Termination: each
iteration either marks an unseen node as seen (and every node ever marked
while the unseen count matters lies in `List.range children.length`, since
`children.get` is empty off range) or shortens the stack. -/
def in_subtreeAux (children : List (List Nat)) (query : Nat) :
    List Nat → List Nat → Bool
  | [], _ => false
  | cur :: rest, seen =>
    if cur = query then true
    else if seen.contains cur then in_subtreeAux children query rest seen
    else
      in_subtreeAux children query
        ((childGet children cur).reverse ++ rest) (cur :: seen)
termination_by stack seen =>
  ((((List.range children.length).filter fun x => !seen.contains x).length),
    stack.length)
decreasing_by
  · apply Prod.Lex.right
    simp
  · rename_i hns
    by_cases hcur : cur < children.length
    · apply Prod.Lex.left
      apply filter_mono_length_lt _ _ _ cur _ _ _ (List.mem_range.mpr hcur)
      · intro x hx
        simp only [List.contains_cons, Bool.not_eq_true', Bool.or_eq_false_iff] at hx ⊢
        exact hx.2
      · simp
      · simp only [Bool.not_eq_true']
        exact Bool.not_eq_true _ |>.mp hns
    · have heq := filter_notseen_eq_of_ge children.length cur seen (Nat.le_of_not_lt hcur)
      rw [heq]
      have hnil : childGet children cur = [] := by
        unfold childGet
        apply List.getD_eq_default
        omega
      rw [hnil]
      apply Prod.Lex.right
      simp

/-- Source's `in_subtree(tokens, children, root_i, query_i)`; the `tokens` argument is
unused in the source as well. -/
def in_subtree (_tokens : List Token) (children : List (List Nat))
    (root_i query_i : Nat) : Bool :=
  in_subtreeAux children query_i [root_i] []

/-- Step-indexed form of the `in_subtree` loop: one fuel unit per loop
iteration, `none` when the budget is exhausted before the loop returns.
Used to state that the traversal reaches its result in finitely many
steps. -/
def in_subtreeFuel (children : List (List Nat)) (query : Nat) :
    Nat → List Nat → List Nat → Option Bool
  | 0, _, _ => Option.none
  | _ + 1, [], _ => some false
  | fuel + 1, cur :: rest, seen =>
    if cur = query then some true
    else if seen.contains cur then in_subtreeFuel children query fuel rest seen
    else
      in_subtreeFuel children query fuel
        ((childGet children cur).reverse ++ rest) (cur :: seen)

/-- Loop of `find_next_boundary`; the counter is the remaining iteration
budget `len(tokens) - i`, making the recursion structural and exact: the
counter reaches `0` exactly when `i ≥ len(tokens)` and the loop exits. -/
def fnbGo (tokens : List Token) (start_i : Nat) : Nat → Nat → Nat
  | _, 0 => tokens.length - 1
  | i, k + 1 =>
    let t := getTok tokens i
    if is_punct t then max start_i (i - 1)
    else if (t.deprel == some "parataxis" || t.deprel == some "root") && i != start_i then
      i - 1
    else fnbGo tokens start_i (i + 1) k

/-- Source's `find_next_boundary(tokens, start_i)`: scan forward, stopping just before
the next punctuation token or a `parataxis`/`root` relation change. -/
def find_next_boundary (tokens : List Token) (start_i : Nat) : Nat :=
  fnbGo tokens start_i start_i (tokens.length - start_i)

/-- Result correlatives signalling a result clause. -/
def RESULT_CORRELATIVES : List String :=
  ["tam", "ita", "sic", "tantus", "talis", "tot", "adeo", "eo", "usque"]

/-- Source's `has_result_correlative(tokens, marker_i)`: the last correlative in the
marker's segment strictly before the marker. -/
def has_result_correlative (tokens : List Token) (marker_i : Nat) :
    Bool × Option Nat :=
  let seg_start := (segment_bounds tokens marker_i).1
  let cands := (List.range' seg_start (marker_i - seg_start)).filter fun j =>
    RESULT_CORRELATIVES.contains (strLower (tok_text (getTok tokens j))) ||
      RESULT_CORRELATIVES.contains (strLower (tok_lemma (getTok tokens j)))
  ((cands.getLast?).isSome, cands.getLast?)

/-- Values stored in a tag's `trigger` record. -/
inductive TrigVal where
  | vNat (n : Nat)
  | vStr (s : String)
  | vNone
deriving Repr, DecidableEq

/-- The `compound` payload of a normalized predicate signature. -/
structure Compound where
  kind : String
  aux_index : Nat
  part_index : Nat
deriving Repr, DecidableEq

/-- Normalized predicate signature (`predicate_signature` output). -/
structure PredSig where
  mood : Option String
  tense : Option String
  aspect : Option String
  verbForm : Option String
  compound : Option Compound
deriving Repr, DecidableEq

/-- The protasis half of the conditional metadata record. -/
structure CondSide where
  verb_index : Option Nat
  mood : Option String
  tense : Option String
  aspect : Option String
  verbForm : Option String
  compound : Option Compound
deriving Repr, DecidableEq

/-- The apodosis half of the conditional metadata record (two extra keys). -/
structure CondApodSide where
  verb_index : Option Nat
  mood : Option String
  tense : Option String
  aspect : Option String
  verbForm : Option String
  compound : Option Compound
  form : Option String
  inf_time : Option String
deriving Repr, DecidableEq

/-- Discourse-inference result (`infer_discourse`'s `mk`). -/
structure Discourse where
  statement : String
  sequence : Option String
  head_verb_index : Option Nat
  head_verb_tense : Option String
  discourse : String
  reason : String
deriving Repr, DecidableEq

/-- Conditional metadata attached to `conditional_*` tags. -/
structure CondMeta where
  label : String
  discourse : String
  sequence : Option String
  statement : String
  head_verb_index : Option Nat
  head_verb_tense : Option String
  protasis : CondSide
  apodosis : CondApodSide
deriving Repr, DecidableEq

/-- An emitted construction tag.  `stop` embeds the source's `end` field
(`end` is reserved in Lean); confidences are integer hundredths. -/
structure Tag where
  type : String
  subtype : Option String := Option.none
  start : Nat
  stop : Nat
  highlight_spans : List (Nat × Nat) := []
  full_span : Option (Nat × Nat) := Option.none
  confidence : Int
  trigger : List (String × TrigVal) := []
  conditional : Option CondMeta := Option.none
deriving Repr, DecidableEq

/-- Source's `tag_cum_clauses(tokens)`: lemma "cum" as SCONJ/ADP with `mark`/`case`
relation whose head verb is subjunctive and finite. -/
def tag_cum_clauses (tokens : List Token) : List Tag :=
  (List.range tokens.length).filterMap fun i =>
    let tok := getTok tokens i
    if strLower (tok_lemma tok) ≠ "cum" then none
    else if !(tok.upos == some "SCONJ" || tok.upos == some "ADP") then none
    else if !(tok.deprel == some "mark" || tok.deprel == some "case") then none
    else
      match headTarget tok tokens.length with
      | Option.none => none
      | some v_i =>
        if has_strong_boundary_between tokens i v_i then none
        else
          let v := getTok tokens v_i
          let feats := featsOrEmpty v.feats
          if feats_has feats "Mood" "Sub" && is_finite_verb v then
            let end0 := find_next_boundary tokens v_i
            let end1 :=
              if has_strong_boundary_between tokens i end0 then
                min end0 (segment_bounds tokens v_i).2
              else end0
            some { type := "cum_clause", start := i, stop := end1,
                   confidence := 90,
                   trigger := [("cum_index", .vNat i), ("verb_index", .vNat v_i)] }
          else none

/-- Source's `tag_ablative_absolutes(tokens)`: ablative participle with an ablative
noun-ish child agreeing in gender and number (all four feature values must
be present). -/
def tag_ablative_absolutes (tokens : List Token) : List Tag :=
  let children := build_children tokens
  (List.range tokens.length).filterMap fun i =>
    let tok := getTok tokens i
    let feats := featsOrEmpty tok.feats
    if tok.upos ≠ some "VERB" then none
    else if !(feats_has feats "VerbForm" "Part") then none
    else if !(feats_has feats "Case" "Abl") then none
    else
      let part_gender := get_feat feats "Gender"
      let part_number := get_feat feats "Number"
      let found := (childGet children i).find? fun ci =>
        let c := getTok tokens ci
        let c_feats := featsOrEmpty c.feats
        is_nounish c && feats_has c_feats "Case" "Abl" &&
          truthyS part_gender && truthyS part_number &&
          truthyS (get_feat c_feats "Gender") && truthyS (get_feat c_feats "Number") &&
          part_gender == get_feat c_feats "Gender" &&
          part_number == get_feat c_feats "Number"
      match found with
      | Option.none => none
      | some found_n =>
        some { type := "abl_abs", start := min i found_n, stop := max i found_n,
               highlight_spans := [(i, i), (found_n, found_n)],
               confidence := 88,
               trigger := [("part_index", .vNat i), ("abl_noun_index", .vNat found_n)] }

/-- Speech-verb lemmas triggering the indirect-statement detector. -/
def SPEECH_LEMMAS : List String :=
  ["dico", "inquam", "aio", "nego", "respondeo", "puto", "existimo", "arbitror",
   "audio", "video", "cognosco", "intellego", "scio", "comperio", "nuntio"]

/-- Broader lemma set used for discourse inference (`SPEECH_LEMMAS` plus
ordering/reporting/perception verbs; the set union keeps membership
semantics, duplicates are harmless). -/
def INDIRECT_HEAD_LEMMAS : List String :=
  SPEECH_LEMMAS ++
  ["impero", "iubeo", "mando", "praecipio", "cogo", "hortor", "moneo",
   "oro", "rogo", "peto", "postulo", "flagito", "posco", "suadeo", "persuadeo",
   "prohibeo", "veto",
   "nuntio", "renuntio", "refero", "denuntio",
   "intellego", "animadverto", "cognosco", "comperio", "rescio"]

/-- Source's `tag_indirect_statements(tokens)`: speech verb with an infinitival child
that has an accusative subject (direct child preferred, subtree fallback). -/
def tag_indirect_statements (tokens : List Token) : List Tag :=
  let children := build_children tokens
  (List.range tokens.length).filterMap fun i =>
    let tok := getTok tokens i
    if !(tok.upos == some "VERB" || tok.upos == some "AUX") then none
    else if !(SPEECH_LEMMAS.contains (strLower (tok_lemma tok))) then none
    else
      let inf? := (childGet children i).find? fun ci =>
        let c := getTok tokens ci
        (c.upos == some "VERB" || c.upos == some "AUX") && is_infinitive c
      match inf? with
      | Option.none => none
      | some inf_i =>
        let direct := (childGet children inf_i).find? fun ci =>
          let c := getTok tokens ci
          is_nounish c && feats_has (featsOrEmpty c.feats) "Case" "Acc" &&
            (c.deprel == some "nsubj" || c.deprel == some "obj" ||
              c.deprel == some "nsubj:pass")
        let best_acc :=
          match direct with
          | some x => some x
          | Option.none =>
            (List.range tokens.length).find? fun j =>
              in_subtree tokens children inf_i j &&
                (let c := getTok tokens j
                 is_nounish c && feats_has (featsOrEmpty c.feats) "Case" "Acc")
        match best_acc with
        | Option.none => none
        | some best_acc =>
          if has_strong_boundary_between tokens best_acc inf_i then none
          else
            let start0 := min best_acc inf_i
            let end0 := find_next_boundary tokens (max best_acc inf_i)
            let dist := max best_acc inf_i - min best_acc inf_i
            let conf0 : Int := if dist ≤ 6 then 90 else 85
            let conf :=
              if (getTok tokens best_acc).deprel == some "nsubj" then conf0 + 3
              else conf0
            let mk := fun (s e : Nat) =>
              some { type := "indirect_statement", start := s, stop := e,
                     highlight_spans := [(best_acc, best_acc), (inf_i, inf_i)],
                     full_span := some (s, e),
                     confidence := conf,
                     trigger := [("speech_verb_index", TrigVal.vNat i),
                                 ("inf_index", TrigVal.vNat inf_i),
                                 ("acc_subject_index", TrigVal.vNat best_acc)] }
            if has_strong_boundary_between tokens start0 end0 then
              let seg := segment_bounds tokens inf_i
              let start1 := max start0 seg.1
              let end1 := min end0 seg.2
              if start1 > end1 then none else mk start1 end1
            else mk start0 end0

/-- Source's `is_subjunctive` (note: the source passes the raw feature bag here,
without the `or ""` guard; behaviour is identical). -/
def is_subjunctive (tok : Token) : Bool :=
  feats_has tok.feats "Mood" "Sub"

/-- Source's `get_tense`. -/
def get_tense (tok : Token) : Option String :=
  feats_get (featsOrEmpty tok.feats) "Tense"

/-- Source's `get_aspect`. -/
def get_aspect (tok : Token) : Option String :=
  feats_get (featsOrEmpty tok.feats) "Aspect"

/-- Source's `get_mood`. -/
def get_mood (tok : Token) : Option String :=
  feats_get (featsOrEmpty tok.feats) "Mood"

/-- Source's `get_verbform`. -/
def get_verbform (tok : Token) : Option String :=
  feats_get (featsOrEmpty tok.feats) "VerbForm"

/-- Source's `looks_like_future_participle_form(form)`: endings "urus", "ura",
"urum", "uros", "uras". -/
def looks_like_future_participle_form (form : String) : Bool :=
  let f := strLower form
  strEnds f "urus" || strEnds f "ura" || strEnds f "urum" ||
    strEnds f "uros" || strEnds f "uras"

/-- The all-unspecified signature returned for a missing or out-of-range
predicate index. -/
def emptySig : PredSig :=
  ⟨Option.none, Option.none, Option.none, Option.none, Option.none⟩

/-- Source's `predicate_signature(tokens, children, vi)`: effective signature of a
predicate, collapsing SUM/ESSE periphrases (future active and
perfect/pluperfect passive) into one logical predicate. -/
def predicate_signature (tokens : List Token) (children : List (List Nat))
    (vi : Option Nat) : PredSig :=
  match vi with
  | Option.none => emptySig
  | some vi =>
    if !(vi < tokens.length) then emptySig
    else
      let tok := getTok tokens vi
      let mood := get_mood tok
      let tense := get_tense tok
      let aspect := get_aspect tok
      let verbForm := get_verbform tok
      let lem := strLower (tok.lemma_.getD "")
      let base : PredSig := ⟨mood, tense, aspect, verbForm, Option.none⟩
      if (lem == "sum" || lem == "esse") &&
          (tok.upos == some "AUX" || tok.upos == some "VERB") then
        let part? := (childGet children vi).find? fun ci =>
          feats_get (featsOrEmpty (getTok tokens ci).feats) "VerbForm" == some "Part"
        match part? with
        | some part_i =>
          let part := getTok tokens part_i
          let p_feats := featsOrEmpty part.feats
          let p_voice := feats_get p_feats "Voice"
          let p_aspect := feats_get p_feats "Aspect"
          let p_form := strLower (part.text.getD "")
          if p_voice == some "Act" &&
              (p_aspect == some "Prosp" || looks_like_future_participle_form p_form) then
            ⟨mood, some "Fut", some "Prosp", verbForm,
              some ⟨"future_active_periphrastic", vi, part_i⟩⟩
          else if p_voice == some "Pass" && p_aspect == some "Perf" then
            let eff_tense :=
              if tense == some "Pres" then some "Past"
              else if tense == some "Past" then some "Pqp"
              else tense
            ⟨mood, eff_tense, some "Perf", verbForm,
              some ⟨"perfect_passive_periphrastic", vi, part_i⟩⟩
          else base
        | Option.none => base
      else base

/-- Source's `is_future_passive_participle`: substring tests on the raw feature
encoding (`"VerbForm=Part" in feats` on the string form; Python key
membership on the dict form, element membership on a list form). -/
def featsContainsMark (f : Feats) (s : String) : Bool :=
  match featsOrEmpty f with
  | .fstr t => strContains t s
  | .fdict m => m.any fun kv => kv.1 == s
  | .flist l => l.contains s
  | .fnone => false

/-- Source's `is_future_passive_participle(tok)`. -/
def is_future_passive_participle (tok : Token) : Bool :=
  if !(tok.upos == some "VERB" || tok.upos == some "AUX") then false
  else
    featsContainsMark tok.feats "VerbForm=Part" &&
      featsContainsMark tok.feats "Voice=Pass" &&
      featsContainsMark tok.feats "Aspect=Prosp"

/-- Source's `is_neuter_singular(tok)`. -/
def is_neuter_singular (tok : Token) : Bool :=
  feats_has (featsOrEmpty tok.feats) "Gender" "Neut" &&
    feats_has (featsOrEmpty tok.feats) "Number" "Sing"

/-- Source's `agrees_case_number_gender(a, b)`: case must not clash (when both carry
it), then gender/number agreement. -/
def agrees_case_number_gender (a b : Token) : Bool :=
  let ca := feats_get (featsOrEmpty a.feats) "Case"
  let cb := feats_get (featsOrEmpty b.feats) "Case"
  if truthyS ca && truthyS cb && ca != cb then false
  else agree_gender_number a b

/-- Source's `is_gerund(tokens, gi)`: neuter-singular future passive participle that
does not agree with a noun-ish head. -/
def is_gerund (tokens : List Token) (gi : Nat) : Bool :=
  let g := getTok tokens gi
  if !(is_future_passive_participle g) then false
  else if !(is_neuter_singular g) then false
  else
    match headTarget g tokens.length with
    | some hi =>
      let h := getTok tokens hi
      if is_nounish h && agrees_case_number_gender g h then false else true
    | Option.none => true

/-- Source's `is_gerundive(tokens, gi)`: a future passive participle that is not a
gerund. -/
def is_gerundive (tokens : List Token) (gi : Nat) : Bool :=
  let g := getTok tokens gi
  if !(is_future_passive_participle g) then false
  else !(is_gerund tokens gi)

/-- Source's `tag_gerunds_and_gerundives(tokens)`. -/
def tag_gerunds_and_gerundives (tokens : List Token) : List Tag :=
  (List.range tokens.length).filterMap fun i =>
    if is_gerund tokens i then
      some { type := "gerund", start := i, stop := i, confidence := 94,
             trigger := [("index", .vNat i),
                         ("rule", .vStr "FPP_neut_sing_substantive")] }
    else if is_gerundive tokens i then
      some { type := "gerundive", start := i, stop := i, confidence := 92,
             trigger := [("index", .vNat i), ("rule", .vStr "FPP_other")] }
    else none

/-- The marker lemma set of purpose clauses. -/
def PURPOSE_MARKERS : List String := ["ut", "ne", "neve", "uti"]

/-- The bounded head-climb shared verbatim by the subjunctive-relative and
relative-clause detectors: at most 6 hops with a seen-set, stopping at a
non-positive or out-of-range head, a revisit, or a strong boundary; `vi`
remembers the last finite VERB/AUX met, and the climb commits early on an
`acl:relcl` verb. -/
def climbGo (tokens : List Token) (i : Nat) :
    Nat → List Nat → Option Nat → Nat → Option Nat
  | _, _, vi, 0 => vi
  | cur, seen, vi, hops + 1 =>
    match (getTok tokens cur).head with
    | Option.none => vi
    | some h =>
      if h ≤ 0 then vi
      else
        let nxt := (h - 1).toNat
        if seen.contains nxt || !(nxt < tokens.length) then vi
        else if has_strong_boundary_between tokens i nxt then vi
        else
          let t := getTok tokens nxt
          if (t.upos == some "VERB" || t.upos == some "AUX") && is_finite_verb t then
            if t.deprel == some "acl:relcl" then some nxt
            else climbGo tokens i nxt (nxt :: seen) (some nxt) hops
          else climbGo tokens i nxt (nxt :: seen) vi hops

/-- Entry point of the bounded head-climb (6 hops, empty seen-set). -/
def climb_to_verb (tokens : List Token) (i : Nat) : Option Nat :=
  climbGo tokens i i [] Option.none 6

/-- First loop of `tag_purpose_clauses`: ut/ne/neve/uti marking a finite
subjunctive head, specialising to a result clause on a preceding
correlative. -/
def tag_purpose_ut (tokens : List Token) : List Tag :=
  (List.range tokens.length).filterMap fun i =>
    let tok := getTok tokens i
    let t := strLower (tok_text tok)
    let lem := strLower (tok_lemma tok)
    if !(PURPOSE_MARKERS.contains t || PURPOSE_MARKERS.contains lem) then none
    else
      match headTarget tok tokens.length with
      | Option.none => none
      | some vi =>
        if has_strong_boundary_between tokens i vi then none
        else
          let vtok := getTok tokens vi
          if !(is_finite_verb vtok && is_subjunctive vtok) then none
          else
            let is_ut_like :=
              strLower (tok_text tok) == "ut" || strLower (tok_text tok) == "uti" ||
                strLower (tok_lemma tok) == "ut" || strLower (tok_lemma tok) == "uti"
            let res := has_result_correlative tokens i
            if is_ut_like && res.1 then
              some { type := "result_clause", subtype := some "ut_correlative_result",
                     start := min i vi, stop := max i vi,
                     highlight_spans := [(i, i), (vi, vi)],
                     confidence := 93,
                     trigger := [("marker_index", .vNat i), ("verb_index", .vNat vi),
                                 ("rule", .vStr "ut/uti+subj+correlative"),
                                 ("correlative_index",
                                   match res.2 with
                                   | some c => .vNat c
                                   | Option.none => .vNone)] }
            else
              some { type := "purpose_clause", subtype := some "ut_ne",
                     start := min i vi, stop := max i vi,
                     highlight_spans := [(i, i), (vi, vi)],
                     confidence := 93,
                     trigger := [("marker_index", .vNat i), ("verb_index", .vNat vi),
                                 ("rule", .vStr "mark+subj")] }

/-- Second loop of `tag_purpose_clauses`: adpositional "ad" heading a gerund,
or a noun with a case/number/gender-agreeing gerundive child. -/
def tag_purpose_ad (tokens : List Token) : List Tag :=
  let children := build_children tokens
  (List.range tokens.length).filterMap fun i =>
    let tok := getTok tokens i
    if tok.upos ≠ some "ADP" then none
    else if !(strLower (tok_text tok) == "ad" || strLower (tok_lemma tok) == "ad") then
      none
    else if tok.deprel ≠ some "case" then none
    else
      match headTarget tok tokens.length with
      | Option.none => none
      | some hi =>
        let head_tok := getTok tokens hi
        if (head_tok.upos == some "VERB" || head_tok.upos == some "AUX") &&
            is_gerund tokens hi then
          if has_strong_boundary_between tokens i hi then none
          else
            some { type := "purpose_clause", subtype := some "ad_gerund",
                   start := min i hi, stop := max i hi,
                   highlight_spans := [(i, i), (hi, hi)],
                   confidence := 92,
                   trigger := [("ad_index", .vNat i), ("gerund_index", .vNat hi),
                               ("rule", .vStr "ad+gerund")] }
        else if is_nounish head_tok then
          let best_g := (childGet children hi).foldl
            (fun acc ci =>
              let ct := getTok tokens ci
              if !(is_future_passive_participle ct) then acc
              else if !(agrees_case_number_gender ct head_tok) then acc
              else
                let dist := max ci hi - min ci hi
                match acc with
                | Option.none => if dist < 1000000000 then some ci else Option.none
                | some b =>
                  if dist < (max b hi - min b hi) then some ci else acc)
            Option.none
          match best_g with
          | Option.none => none
          | some best_g =>
            if has_strong_boundary_between tokens i best_g then none
            else
              some { type := "purpose_clause", subtype := some "ad_noun_gerundive",
                     start := min i best_g, stop := max i best_g,
                     highlight_spans := [(i, i), (best_g, best_g)],
                     confidence := 90,
                     trigger := [("ad_index", .vNat i), ("noun_index", .vNat hi),
                                 ("gerundive_index", .vNat best_g),
                                 ("rule", .vStr "ad+noun+gerundive_agree")] }
        else none

/-- Third loop of `tag_purpose_clauses`: relative pronoun whose bounded head
climb reaches a finite subjunctive verb (subjunctive relative clause of
characteristic). -/
def tag_purpose_rel (tokens : List Token) : List Tag :=
  (List.range tokens.length).filterMap fun i =>
    let tok := getTok tokens i
    if !(feats_has tok.feats "PronType" "Rel") then none
    else if !(tok.upos == some "PRON" || tok.upos == some "DET") then none
    else if strLower (tok_lemma tok) == "cum" || strLower (tok_lemma tok) == "ut" then
      none
    else
      match climb_to_verb tokens i with
      | Option.none => none
      | some vi =>
        if !(is_subjunctive (getTok tokens vi)) then none
        else if has_strong_boundary_between tokens i vi then none
        else
          some { type := "subjunctive_relative_clause", subtype := some "qui_subj",
                 start := min i vi, stop := max i vi,
                 highlight_spans := [(i, i), (vi, vi)],
                 confidence := 90,
                 trigger := [("rel_pron_index", .vNat i), ("verb_index", .vNat vi),
                             ("rule", .vStr "rel+subj")] }

/-- Source's `tag_purpose_clauses(tokens)`: the three loops run in sequence over the
shared output list. -/
def tag_purpose_clauses (tokens : List Token) : List Tag :=
  tag_purpose_ut tokens ++ tag_purpose_ad tokens ++ tag_purpose_rel tokens

/-- Source's `tag_relative_clauses(tokens)`: same climb, any finite mood; subtype by
mood. -/
def tag_relative_clauses (tokens : List Token) : List Tag :=
  (List.range tokens.length).filterMap fun i =>
    let tok := getTok tokens i
    if !(feats_has tok.feats "PronType" "Rel") then none
    else if !(tok.upos == some "PRON" || tok.upos == some "DET") then none
    else if strLower (tok_lemma tok) == "cum" || strLower (tok_lemma tok) == "ut" then
      none
    else
      match climb_to_verb tokens i with
      | Option.none => none
      | some vi =>
        if has_strong_boundary_between tokens i vi then none
        else
          let mood := get_mood (getTok tokens vi)
          if mood == some "Sub" then
            some { type := "relative_clause", subtype := some "subjunctive",
                   start := min i vi, stop := max i vi,
                   highlight_spans := [(i, i), (vi, vi)],
                   confidence := 90,
                   trigger := [("rel_pron_index", .vNat i), ("verb_index", .vNat vi),
                               ("rule", .vStr "PronType=Rel+finite")] }
          else if mood == some "Ind" then
            some { type := "relative_clause", subtype := some "indicative",
                   start := min i vi, stop := max i vi,
                   highlight_spans := [(i, i), (vi, vi)],
                   confidence := 91,
                   trigger := [("rel_pron_index", .vNat i), ("verb_index", .vNat vi),
                               ("rule", .vStr "PronType=Rel+finite")] }
          else none

/-- Source's `infer_infinitive_time(tokens, children, inf_i)`: best-effort time of an
infinitival apodosis (explicit tense/aspect, "fore", or a participle in the
subtree of an "esse" infinitive). -/
def infer_infinitive_time (tokens : List Token) (children : List (List Nat))
    (inf_i : Option Nat) : Option String :=
  match inf_i with
  | Option.none => Option.none
  | some inf_i =>
    let tok := getTok tokens inf_i
    let feats := featsOrEmpty tok.feats
    let txt := strLower (tok.text.getD "")
    let lem := strLower (tok.lemma_.getD "")
    let tense := feats_get feats "Tense"
    let aspect := feats_get feats "Aspect"
    if tense == some "Past" || tense == some "Pqp" || aspect == some "Perf" then
      some "Past"
    else if tense == some "Fut" || aspect == some "Prosp" then some "Fut"
    else if txt == "fore" then some "Fut"
    else if lem == "sum" then
      let sub := (List.range tokens.length).filter fun j =>
        j ≠ inf_i && in_subtree tokens children inf_i j
      let saw_future := sub.any fun j =>
        let tj := getTok tokens j
        let featsj := featsOrEmpty tj.feats
        let formj := strLower (tj.text.getD "")
        (feats_get featsj "VerbForm" == some "Part" &&
          (looks_like_future_participle_form formj ||
            feats_get featsj "Aspect" == some "Prosp")) ||
        formj == "fore"
      let saw_past := sub.any fun j =>
        let tj := getTok tokens j
        let featsj := featsOrEmpty tj.feats
        feats_get featsj "VerbForm" == some "Part" &&
          feats_get featsj "Voice" == some "Pass" &&
          feats_get featsj "Aspect" == some "Perf"
      if saw_future then some "Fut"
      else if saw_past then some "Past"
      else some "Pres"
    else some "Pres"

/-- Source's `classify_conditional(tokens, children, pv_i, ap_i, discourse)`: label a
(protasis, apodosis) pair. -/
def classify_conditional (tokens : List Token) (children : List (List Nat))
    (pv_i ap_i : Option Nat) (discourse : Option Discourse) : String :=
  let disc := match discourse with
    | some d => d.discourse
    | Option.none => "direct"
  match pv_i with
  | Option.none => "unknown"
  | some pv =>
    if !(pv < tokens.length) then "unknown"
    else
      let pv_sig := predicate_signature tokens children (some pv)
      let pm := pv_sig.mood
      let pt := pv_sig.tense
      let pa := pv_sig.aspect
      let apOk : Bool := match ap_i with
        | some ap => ap < tokens.length
        | Option.none => false
      if !apOk then
        -- no usable apodosis: classify from the protasis signature alone
        if pm == some "Sub" && pt == some "Pres" then "future_less_vivid"
        else if pm == some "Sub" && pt == some "Past" && pa == some "Imp" then
          "present_contrafactual"
        else if pm == some "Sub" && (pt == some "Pqp" || pa == some "Perf") then
          "past_contrafactual"
        else if pm == some "Ind" && pt == some "Fut" then "future_more_vivid"
        else if pm == some "Ind" && pt == some "Pres" then "present_simple"
        else if pm == some "Ind" && pt == some "Past" then "past_simple"
        else "mixed"
      else
        let ap := (ap_i.getD 0)
        let av := getTok tokens ap
        if is_infinitive av then
          let inf_time := infer_infinitive_time tokens children (some ap)
          if strStarts disc "indirect" then
            if pm == some "Sub" && pt == some "Pres" then "future_less_vivid"
            else if pm == some "Sub" && pt == some "Past" && pa == some "Imp" then
              "present_contrafactual"
            else if pm == some "Sub" && (pt == some "Pqp" || pa == some "Perf") then
              "past_contrafactual"
            else if pm == some "Ind" && pt == some "Fut" && inf_time == some "Fut" then
              "future_more_vivid"
            else if pm == some "Ind" && pt == some "Pres" && inf_time == some "Pres" then
              "present_simple"
            else if pm == some "Ind" && pt == some "Past" &&
                (inf_time == some "Past" || inf_time == some "Pres") then
              "past_simple"
            else if pm == some "Sub" then "future_less_vivid"
            else "mixed"
          else
            if pm == some "Sub" && pt == some "Pres" then "future_less_vivid"
            else if pm == some "Sub" && pt == some "Past" && pa == some "Imp" then
              "present_contrafactual"
            else if pm == some "Sub" && (pt == some "Pqp" || pa == some "Perf") then
              "past_contrafactual"
            else "mixed"
        else
          let av_sig := predicate_signature tokens children (some ap)
          let am := av_sig.mood
          let at_ := av_sig.tense
          let aa := av_sig.aspect
          let prot_is_imperfect_subj :=
            pm == some "Sub" && pt == some "Past" && pa == some "Imp"
          let apod_is_imperfect_subj :=
            am == some "Sub" && at_ == some "Past" && aa == some "Imp"
          let prot_is_pluperfect_like :=
            pm == some "Sub" && (pt == some "Pqp" || pa == some "Perf")
          let apod_is_pluperfect_like :=
            am == some "Sub" && (at_ == some "Pqp" || aa == some "Perf")
          if disc == "direct" then
            if pm == some "Ind" && am == some "Ind" then
              if pt == some "Fut" && at_ == some "Fut" then "future_more_vivid"
              else if pt == some "Pres" && at_ == some "Pres" then "present_simple"
              else if pt == some "Past" && at_ == some "Past" then "past_simple"
              else "mixed_indicative"
            else if pm == some "Sub" && am == some "Sub" then
              if pt == some "Pres" && at_ == some "Pres" then "future_less_vivid"
              else if prot_is_imperfect_subj && apod_is_imperfect_subj then
                "present_contrafactual"
              else if prot_is_pluperfect_like && apod_is_pluperfect_like then
                "past_contrafactual"
              else "mixed_subjunctive"
            else "mixed"
          else
            if pm == some "Sub" then
              if pt == some "Pres" && at_ == some "Pres" && am == some "Sub" then
                "future_less_vivid"
              else if prot_is_imperfect_subj then "present_contrafactual"
              else if prot_is_pluperfect_like then "past_contrafactual"
              else "mixed_subjunctive"
            else if pm == some "Ind" then
              if pt == some "Fut" && at_ == some "Fut" && am == some "Ind" then
                "future_more_vivid"
              else if pt == some "Pres" && at_ == some "Pres" && am == some "Ind" then
                "present_simple"
              else if pt == some "Past" && at_ == some "Past" && am == some "Ind" then
                "past_simple"
              else "mixed"
            else "mixed"

/-- Validity test applied by `classify_conditional` to its predicate
indices (`x is None or not (0 <= x < len(tokens))`). -/
def validOptIdx (tokens : List Token) : Option Nat → Bool
  | some i => i < tokens.length
  | Option.none => false

/-- The discourse string read by `classify_conditional`
(`(discourse or {}).get("discourse", "direct")`). -/
def discStr (d : Option Discourse) : String :=
  match d with
  | some x => x.discourse
  | Option.none => "direct"

/-- The classification table of `classify_conditional` expressed over its
actual inputs: protasis/apodosis validity, the two normalized signatures,
the inferred infinitive time of the apodosis, and the discourse string.
`classify_conditional` factors through this function (see
`classify_conditional_factors`); the apodosis's "is infinitive" test
coincides with its signature's `verbForm` being `Inf`. -/
def classifyOfData (pvOk : Bool) (pvSig : PredSig) (apOk : Bool)
    (apSig : PredSig) (infTime : Option String) (disc : String) : String :=
  if !pvOk then "unknown"
  else
    let pm := pvSig.mood
    let pt := pvSig.tense
    let pa := pvSig.aspect
    if !apOk then
      if pm == some "Sub" && pt == some "Pres" then "future_less_vivid"
      else if pm == some "Sub" && pt == some "Past" && pa == some "Imp" then
        "present_contrafactual"
      else if pm == some "Sub" && (pt == some "Pqp" || pa == some "Perf") then
        "past_contrafactual"
      else if pm == some "Ind" && pt == some "Fut" then "future_more_vivid"
      else if pm == some "Ind" && pt == some "Pres" then "present_simple"
      else if pm == some "Ind" && pt == some "Past" then "past_simple"
      else "mixed"
    else
      if apSig.verbForm == some "Inf" then
        if strStarts disc "indirect" then
          if pm == some "Sub" && pt == some "Pres" then "future_less_vivid"
          else if pm == some "Sub" && pt == some "Past" && pa == some "Imp" then
            "present_contrafactual"
          else if pm == some "Sub" && (pt == some "Pqp" || pa == some "Perf") then
            "past_contrafactual"
          else if pm == some "Ind" && pt == some "Fut" && infTime == some "Fut" then
            "future_more_vivid"
          else if pm == some "Ind" && pt == some "Pres" && infTime == some "Pres" then
            "present_simple"
          else if pm == some "Ind" && pt == some "Past" &&
              (infTime == some "Past" || infTime == some "Pres") then
            "past_simple"
          else if pm == some "Sub" then "future_less_vivid"
          else "mixed"
        else
          if pm == some "Sub" && pt == some "Pres" then "future_less_vivid"
          else if pm == some "Sub" && pt == some "Past" && pa == some "Imp" then
            "present_contrafactual"
          else if pm == some "Sub" && (pt == some "Pqp" || pa == some "Perf") then
            "past_contrafactual"
          else "mixed"
      else
        let am := apSig.mood
        let at_ := apSig.tense
        let aa := apSig.aspect
        let prot_is_imperfect_subj :=
          pm == some "Sub" && pt == some "Past" && pa == some "Imp"
        let apod_is_imperfect_subj :=
          am == some "Sub" && at_ == some "Past" && aa == some "Imp"
        let prot_is_pluperfect_like :=
          pm == some "Sub" && (pt == some "Pqp" || pa == some "Perf")
        let apod_is_pluperfect_like :=
          am == some "Sub" && (at_ == some "Pqp" || aa == some "Perf")
        if disc == "direct" then
          if pm == some "Ind" && am == some "Ind" then
            if pt == some "Fut" && at_ == some "Fut" then "future_more_vivid"
            else if pt == some "Pres" && at_ == some "Pres" then "present_simple"
            else if pt == some "Past" && at_ == some "Past" then "past_simple"
            else "mixed_indicative"
          else if pm == some "Sub" && am == some "Sub" then
            if pt == some "Pres" && at_ == some "Pres" then "future_less_vivid"
            else if prot_is_imperfect_subj && apod_is_imperfect_subj then
              "present_contrafactual"
            else if prot_is_pluperfect_like && apod_is_pluperfect_like then
              "past_contrafactual"
            else "mixed_subjunctive"
          else "mixed"
        else
          if pm == some "Sub" then
            if pt == some "Pres" && at_ == some "Pres" && am == some "Sub" then
              "future_less_vivid"
            else if prot_is_imperfect_subj then "present_contrafactual"
            else if prot_is_pluperfect_like then "past_contrafactual"
            else "mixed_subjunctive"
          else if pm == some "Ind" then
            if pt == some "Fut" && at_ == some "Fut" && am == some "Ind" then
              "future_more_vivid"
            else if pt == some "Pres" && at_ == some "Pres" && am == some "Ind" then
              "present_simple"
            else if pt == some "Past" && at_ == some "Past" && am == some "Ind" then
              "past_simple"
            else "mixed"
          else "mixed"

/-- Source's `is_relative_like_verb(j)` (nested in `tag_conditionals`): a predicate
whose relation mentions "relcl" or that has a relative pronoun/determiner
child. -/
def is_relative_like_verb (tokens : List Token) (children : List (List Nat))
    (j : Nat) : Bool :=
  let tj := getTok tokens j
  let dep := tj.deprel.getD ""
  if strContains dep "relcl" then true
  else
    (childGet children j).any fun c =>
      let ct := getTok tokens c
      (ct.upos == some "PRON" || ct.upos == some "DET") &&
        feats_has (featsOrEmpty ct.feats) "PronType" "Rel"

/-- A comma token as tested by `comma_clause_bounds`. -/
def isCommaTok (tok : Token) : Bool :=
  tok.upos == some "PUNCT" && tok_text tok == ","

/-- Downward comma scan: nearest comma at an index in `[seg_start, k]`,
walking down from `k`. -/
def findCommaDown (tokens : List Token) (seg_start : Nat) : Nat → Option Nat
  | 0 =>
    if 0 < seg_start then none
    else if isCommaTok (getTok tokens 0) then some 0
    else none
  | k + 1 =>
    if k + 1 < seg_start then none
    else if isCommaTok (getTok tokens (k + 1)) then some (k + 1)
    else findCommaDown tokens seg_start k

/-- Upward comma scan: nearest comma in `[k, seg_end]`, walking up from `k`;
the counter is the remaining iteration budget. -/
def findCommaUpGo (tokens : List Token) : Nat → Nat → Option Nat
  | _, 0 => none
  | k, b + 1 =>
    if isCommaTok (getTok tokens k) then some k
    else findCommaUpGo tokens (k + 1) b

/-- Upward comma scan over `[k, seg_end]`. -/
def findCommaUp (tokens : List Token) (seg_end k : Nat) : Option Nat :=
  findCommaUpGo tokens k (seg_end + 1 - k)

/-- Final clamping step of `comma_clause_bounds`: clamp the raw comma bounds
into the segment, falling back to the degenerate `(center_i, center_i)`. -/
def clampRange (center_i seg_start seg_end left0 right0 : Nat) : Nat × Nat :=
  let left := max seg_start left0
  let right := min seg_end right0
  if left > right then (center_i, center_i) else (left, right)

/-- Source's `comma_clause_bounds(center_i, seg_start, seg_end, include_trailing_comma)`
(nested in `tag_conditionals`): clause bounds around `center_i` with commas
as the hard cutoff, clamped into the segment; a degenerate interval falls
back to `(center_i, center_i)`. -/
def comma_clause_bounds (tokens : List Token) (center_i seg_start seg_end : Nat)
    (include_trailing_comma : Bool) : Nat × Nat :=
  let left :=
    match (if center_i = 0 then none else findCommaDown tokens seg_start (center_i - 1)) with
    | some k => k + 1
    | Option.none => seg_start
  let right :=
    match findCommaUp tokens seg_end (center_i + 1) with
    | some k => if include_trailing_comma then k else k - 1
    | Option.none => seg_end
  clampRange center_i seg_start seg_end left right

/-- Source's `ancestors_local(idx, max_hops=30)` (nested in `tag_conditionals`):
follow heads upward, collecting in-range ancestors, up to the hop budget. -/
def ancestorsGo (tokens : List Token) : Nat → Nat → List Nat
  | _, 0 => []
  | cur, hops + 1 =>
    match (getTok tokens cur).head with
    | Option.none => []
    | some h =>
      if h ≤ 0 then []
      else
        let nxt := (h - 1).toNat
        if nxt < tokens.length then nxt :: ancestorsGo tokens nxt hops
        else []

/-- Source's `ancestors_local` entry point (30 hops). -/
def ancestors_local (tokens : List Token) (idx : Nat) : List Nat :=
  ancestorsGo tokens idx 30

/-- The `mk` closure of `infer_discourse`: assemble a `Discourse` record. -/
def disc_mk (tokens : List Token) (statement : String) (sequence : Option String)
    (head_i : Option Nat) (reason : String) : Discourse :=
  { statement := statement
    sequence := sequence
    head_verb_index := head_i
    head_verb_tense :=
      match head_i with
      | some i => get_tense (getTok tokens i)
      | Option.none => Option.none
    discourse :=
      if statement = "direct" then "direct"
      else
        match sequence with
        | some s => if s.isEmpty then "indirect" else "indirect_" ++ s
        | Option.none => "indirect"
    reason := reason }

/-- Source's `infer_sequence_from_head` (nested): primary on present/future head
tense, secondary on past/pluperfect. -/
def infer_sequence_from_head (tokens : List Token) (i : Nat) : Option String :=
  let ht := get_tense (getTok tokens i)
  if ht == some "Pres" || ht == some "Fut" then some "primary"
  else if ht == some "Past" || ht == some "Pqp" then some "secondary"
  else Option.none

/-- First minimal element of `l` under distance to `anchor` (Python
`min(..., key=...)` keeps the first minimum). -/
def argminDist (anchor : Nat) (l : List Nat) : Option Nat :=
  l.foldl
    (fun acc j =>
      match acc with
      | Option.none => some j
      | some b =>
        if (max j anchor - min j anchor) < (max b anchor - min b anchor) then some j
        else acc)
    Option.none

/-- Source's `infer_discourse(pv_i, ap_i, seg_start, seg_end)` (nested in
`tag_conditionals`): (1) speech/command head verb among dependency
ancestors; (2) nearest such verb in the sentence unit; (3) infinitive
apodosis with no other finite predicate in the segment; else direct. -/
def infer_discourse (tokens : List Token) (pv_i : Nat) (ap_i : Option Nat)
    (seg_start seg_end : Nat) : Discourse :=
  let isHeadVerb := fun (j : Nat) =>
    INDIRECT_HEAD_LEMMAS.contains (strLower (tok_lemma (getTok tokens j))) &&
      is_finite_verb (getTok tokens j)
  let anc_hit := ([some pv_i, ap_i].filterMap id).findSome? fun b =>
    (ancestors_local tokens b).find? isHeadVerb
  match anc_hit with
  | some anc =>
    disc_mk tokens "indirect" (infer_sequence_from_head tokens anc) (some anc)
      "headverb_ancestor"
  | Option.none =>
    let anchor := pv_i
    let sb := sentence_bounds tokens anchor
    let head_candidates :=
      (List.range' sb.1 (sb.2 + 1 - sb.1)).filter isHeadVerb
    match argminDist anchor head_candidates with
    | some head_i =>
      disc_mk tokens "indirect" (infer_sequence_from_head tokens head_i) (some head_i)
        "headverb_sentence_unit"
    | Option.none =>
      let infinitive_case : Bool :=
        match ap_i with
        | some ap =>
          if is_infinitive (getTok tokens ap) then
            let finite_in_seg := (List.range' seg_start (seg_end + 1 - seg_start)).filter
              fun j => is_finite_verb (getTok tokens j)
            match finite_in_seg with
            | [] => true
            | [j] => j == pv_i
            | _ => false
          else false
        | Option.none => false
      if infinitive_case then
        let pt := get_tense (getTok tokens pv_i)
        let seq :=
          if pt == some "Pres" then some "primary"
          else if pt == some "Past" || pt == some "Pqp" then some "secondary"
          else Option.none
        disc_mk tokens "indirect" seq Option.none "heuristic_infinitive_main"
      else disc_mk tokens "direct" Option.none Option.none "default_direct"

/-- Source's `is_candidate` of `pick_apodosis`: a VERB/AUX that is finite or
infinitival. -/
def apodosis_candidate (tok : Token) : Bool :=
  if !(tok.upos == some "VERB" || tok.upos == some "AUX") then false
  else is_finite_verb tok || is_infinitive tok

/-- Source's `score(j)` of `pick_apodosis`: proximity bonus after the protasis,
root/VERB bonuses, penalties for speech heads and relative-clause
predicates. -/
def apodosis_score (tokens : List Token) (children : List (List Nat))
    (prefer_after_i j : Nat) : Int :=
  let tj := getTok tokens j
  let s0 : Int :=
    if prefer_after_i ≤ j then 6 - ((j : Int) - (prefer_after_i : Int))
    else -2 - ((prefer_after_i : Int) - (j : Int))
  let s1 := if tj.deprel == some "root" then s0 + 8 else s0
  let s2 := if tj.upos == some "VERB" then s1 + 2 else s1
  let s3 :=
    if INDIRECT_HEAD_LEMMAS.contains (strLower (tok_lemma tj)) && is_finite_verb tj then
      s2 - 8
    else s2
  if is_relative_like_verb tokens children j then s3 - 50 else s3

/-- Maximum of a candidate list under `(score, index)` lexicographic order
(Python `sort(reverse=True)` then first element). -/
def pickBest (score : Nat → Int) : List Nat → Option Nat :=
  List.foldl
    (fun acc j =>
      match acc with
      | Option.none => some j
      | some b =>
        if score j > score b || (score j == score b && j > b) then some j else acc)
    Option.none

/-- Source's `pick_apodosis(tokens, pv_i, protasis_nodes, blocked_nodes,
prefer_after_i, forbidden)` (nested in `tag_conditionals`): closest scored
predicate in the protasis verb's segment, preferring candidates at or after
the last protasis. -/
def pick_apodosis (tokens : List Token) (children : List (List Nat)) (pv_i : Nat)
    (protasis_nodes blocked_nodes : List Nat) (prefer_after_i : Option Nat)
    (forbidden : List Nat) : Option Nat :=
  let seg := segment_bounds tokens pv_i
  let prefer := prefer_after_i.getD pv_i
  let cands := (List.range' seg.1 (seg.2 + 1 - seg.1)).filter fun j =>
    !(protasis_nodes.contains j) && !(blocked_nodes.contains j) &&
      !(forbidden.contains j) && apodosis_candidate (getTok tokens j)
  let after := cands.filter fun j => prefer ≤ j
  let before := cands.filter fun j => !(prefer ≤ j)
  match pickBest (apodosis_score tokens children prefer) after with
  | some j => some j
  | Option.none => pickBest (apodosis_score tokens children prefer) before

/-- Minimum of `x` and the elements of `l`. -/
def natListMin (x : Nat) (l : List Nat) : Nat := l.foldl min x

/-- Maximum of `x` and the elements of `l`. -/
def natListMax (x : Nat) (l : List Nat) : Nat := l.foldl max x

/-- A collected protasis (pass 1 of `tag_conditionals`): the "si" marker,
its verb, the enclosing segment, and the comma-bounded surface span
(`prot_left` already lowered to include the "si" token; `prot_right` is the
raw comma bound recorded as `last_protasis_end`). -/
structure Protasis where
  si_index : Nat
  pv_i : Nat
  seg_start : Nat
  seg_end : Nat
  prot_left : Nat
  prot_right : Nat
deriving Repr, DecidableEq

/-- The protasis text-span node set, `set(range(prot_left, prot_right+1))`. -/
def protasisNodes (p : Protasis) : List Nat :=
  List.range' p.prot_left (p.prot_right + 1 - p.prot_left)

/-- Pass 1 of `tag_conditionals`: collect all protases ("si" in a `mark`
relation headed by a VERB/AUX, no strong boundary crossing). -/
def collect_protases (tokens : List Token) : List Protasis :=
  (List.range tokens.length).filterMap fun i =>
    let tok := getTok tokens i
    if !(strLower (tok_text tok) == "si" || strLower (tok_lemma tok) == "si") then
      none
    else if tok.deprel ≠ some "mark" then none
    else
      match headTarget tok tokens.length with
      | Option.none => none
      | some pv_i =>
        if has_strong_boundary_between tokens i pv_i then none
        else
          let pv := getTok tokens pv_i
          if !(pv.upos == some "VERB" || pv.upos == some "AUX") then none
          else
            let seg := segment_bounds tokens pv_i
            let cb := comma_clause_bounds tokens pv_i seg.1 seg.2 true
            some { si_index := i, pv_i := pv_i, seg_start := seg.1, seg_end := seg.2,
                   prot_left := min cb.1 i, prot_right := cb.2 }

/-- The union of protasis node spans for one segment key
(`seg_key_to_info[key]["blocked_nodes"]`). -/
def seg_blocked (protases : List Protasis) (key : Nat × Nat) : List Nat :=
  (protases.filter fun p => (p.seg_start, p.seg_end) == key).flatMap protasisNodes

/-- The furthest protasis comma bound for one segment key
(`seg_key_to_info[key]["last_protasis_end"]`, which starts at −1 and is
only read for keys with at least one protasis, so folding from 0 agrees). -/
def seg_last_end (protases : List Protasis) (key : Nat × Nat) : Nat :=
  (protases.filter fun p => (p.seg_start, p.seg_end) == key).foldl
    (fun a p => max a p.prot_right) 0

/-- Pass 2 of `tag_conditionals` for one protasis: pick the apodosis, infer
discourse (reselecting if the discourse head verb was chosen), classify,
and emit the protasis tag plus, when an apodosis exists, the apodosis tag. -/
def condTagsFor (tokens : List Token) (children : List (List Nat))
    (protases : List Protasis) (p : Protasis) : List Tag :=
  let i := p.si_index
  let pv_i := p.pv_i
  let key := (p.seg_start, p.seg_end)
  let nodes := protasisNodes p
  let blocked := (seg_blocked protases key).filter fun j => !(nodes.contains j)
  let prefer_after := max pv_i (seg_last_end protases key)
  let ap0 := pick_apodosis tokens children pv_i nodes blocked (some prefer_after) []
  let disc0 := infer_discourse tokens pv_i ap0 p.seg_start p.seg_end
  let step2 : Option Nat × Discourse :=
    match disc0.head_verb_index, ap0 with
    | some h, some a =>
      if a = h then
        match pick_apodosis tokens children pv_i nodes blocked (some prefer_after) [h] with
        | some alt =>
          (some alt, infer_discourse tokens pv_i (some alt) p.seg_start p.seg_end)
        | Option.none => (ap0, disc0)
      else (ap0, disc0)
    | _, _ => (ap0, disc0)
  let ap_i := step2.1
  let disc := step2.2
  let label := classify_conditional tokens children (some pv_i) ap_i (some disc)
  let pv_sig := predicate_signature tokens children (some pv_i)
  let av_sig : Option PredSig :=
    match ap_i with
    | some _ => some (predicate_signature tokens children ap_i)
    | Option.none => Option.none
  let formPair : Option String × Option String :=
    match ap_i with
    | Option.none => (Option.none, Option.none)
    | some a =>
      let av := getTok tokens a
      if is_infinitive av then
        (some "infinitive", infer_infinitive_time tokens children (some a))
      else if is_finite_verb av then (some "finite", Option.none)
      else (Option.none, Option.none)
  let meta : CondMeta :=
    { label := label
      discourse := disc.discourse
      sequence := disc.sequence
      statement := disc.statement
      head_verb_index := disc.head_verb_index
      head_verb_tense := disc.head_verb_tense
      protasis :=
        { verb_index := some pv_i, mood := pv_sig.mood, tense := pv_sig.tense,
          aspect := pv_sig.aspect, verbForm := pv_sig.verbForm,
          compound := pv_sig.compound }
      apodosis :=
        { verb_index := ap_i
          mood := (av_sig.map PredSig.mood).getD Option.none
          tense := (av_sig.map PredSig.tense).getD Option.none
          aspect := (av_sig.map PredSig.aspect).getD Option.none
          verbForm := (av_sig.map PredSig.verbForm).getD Option.none
          compound := (av_sig.map PredSig.compound).getD Option.none
          form := formPair.1
          inf_time := formPair.2 } }
  let subtypeStr := if label.isEmpty then "unknown" else label
  let prot_start := max p.seg_start (natListMin i (pv_i :: nodes))
  let prot_end := min p.seg_end (natListMax i (pv_i :: nodes))
  let protTag : Tag :=
    { type := "conditional_protasis", subtype := some subtypeStr,
      start := prot_start, stop := prot_end,
      highlight_spans := [(prot_start, prot_end)],
      confidence := 83,
      conditional := some meta,
      trigger := [("si_index", .vNat i), ("protasis_verb_index", .vNat pv_i),
                  ("apodosis_verb_index",
                    match ap_i with
                    | some a => .vNat a
                    | Option.none => .vNone),
                  ("rule", .vStr "si+head")] }
  match ap_i with
  | Option.none => [protTag]
  | some a =>
    let cb := comma_clause_bounds tokens a p.seg_start p.seg_end true
    let spanPair : Nat × Nat :=
      if cb.2 - cb.1 < 1 then
        let clamp := comma_clause_bounds tokens a p.seg_start p.seg_end true
        let ap_nodes := (List.range' clamp.1 (clamp.2 + 1 - clamp.1)).filter fun j =>
          in_subtree tokens children a j
        match ap_nodes with
        | [] => (cb.1, cb.2)
        | j :: rest =>
          (max clamp.1 (natListMin j rest), min clamp.2 (natListMax j rest))
      else (cb.1, cb.2)
    [protTag,
     { type := "conditional_apodosis", subtype := some subtypeStr,
       start := spanPair.1, stop := spanPair.2,
       highlight_spans := [(spanPair.1, spanPair.2)],
       confidence := 80,
       conditional := some meta,
       trigger := [("si_index", .vNat i), ("protasis_verb_index", .vNat pv_i),
                   ("apodosis_verb_index", .vNat a),
                   ("rule", .vStr "main-clause-bound-by-commas")] }]

/-- Source's `tag_conditionals(tokens)`: the two passes. -/
def tag_conditionals (tokens : List Token) : List Tag :=
  let children := build_children tokens
  let protases := collect_protases tokens
  protases.flatMap (condTagsFor tokens children protases)

/-- First loop of `tag_gerund_gerundive_flip`: a gerund with an `obj`
dependent. -/
def tag_flip_gerund_obj (tokens : List Token) : List Tag :=
  let children := build_children tokens
  (List.range tokens.length).filterMap fun i =>
    if !(is_gerund tokens i) then none
    else
      let obj_children := (childGet children i).filter fun ci =>
        (getTok tokens ci).deprel == some "obj"
      match argminDist i obj_children with
      | Option.none => none
      | some best_obj =>
        some { type := "gerund_gerundive_flip",
               subtype := some "gerund_form_with_object",
               start := min i best_obj, stop := max i best_obj,
               highlight_spans := [(i, i), (best_obj, best_obj)],
               confidence := 86,
               trigger := [("gerund_index", .vNat i), ("obj_index", .vNat best_obj),
                           ("rule", .vStr "gerund+obj")] }

/-- Second loop of `tag_gerund_gerundive_flip`: the "ad" phrase environment,
with "ad" attached either to the noun or to the gerundive. -/
def tag_flip_ad (tokens : List Token) : List Tag :=
  let children := build_children tokens
  (List.range tokens.length).filterMap fun i =>
    let tok := getTok tokens i
    if tok.upos ≠ some "ADP" then none
    else if tok.deprel ≠ some "case" then none
    else if !(strLower (tok_text tok) == "ad" || strLower (tok_lemma tok) == "ad") then
      none
    else
      match headTarget tok tokens.length with
      | Option.none => none
      | some hi =>
        let head_tok := getTok tokens hi
        if is_nounish head_tok then
          let best_g := (childGet children hi).foldl
            (fun acc ci =>
              if !(is_gerundive tokens ci) then acc
              else if !(agrees_case_number_gender (getTok tokens ci) head_tok) then acc
              else
                let dist := max ci hi - min ci hi
                match acc with
                | Option.none => if dist < 1000000000 then some ci else Option.none
                | some b =>
                  if dist < (max b hi - min b hi) then some ci else acc)
            Option.none
          match best_g with
          | Option.none => none
          | some best_g =>
            if has_strong_boundary_between tokens i best_g then none
            else
              some { type := "gerund_gerundive_flip",
                     subtype := some "gerundive_form_ad_phrase",
                     start := min i (min hi best_g), stop := max i (max hi best_g),
                     highlight_spans := [(i, i), (hi, hi), (best_g, best_g)],
                     confidence := 84,
                     trigger := [("ad_index", .vNat i), ("noun_index", .vNat hi),
                                 ("gerundive_index", .vNat best_g),
                                 ("rule", .vStr "ad+noun+gerundive")] }
        else if is_gerundive tokens hi then
          let best_n := (childGet children hi).foldl
            (fun acc ci =>
              let ct := getTok tokens ci
              if !(is_nounish ct) then acc
              else if !(agrees_case_number_gender (getTok tokens hi) ct) then acc
              else
                let dist := max ci hi - min ci hi
                match acc with
                | Option.none => if dist < 1000000000 then some ci else Option.none
                | some b =>
                  if dist < (max b hi - min b hi) then some ci else acc)
            Option.none
          match best_n with
          | Option.none =>
            if has_strong_boundary_between tokens i hi then none
            else
              some { type := "gerund_gerundive_flip",
                     subtype := some "gerundive_form_ad_phrase_no_noun",
                     start := min i hi, stop := max i hi,
                     highlight_spans := [(i, i), (hi, hi)],
                     confidence := 72,
                     trigger := [("ad_index", .vNat i), ("gerundive_index", .vNat hi),
                                 ("rule", .vStr "ad+gerundive(no_noun)")] }
          | some noun_i =>
            if has_strong_boundary_between tokens i hi then none
            else
              some { type := "gerund_gerundive_flip",
                     subtype := some "gerundive_form_ad_phrase",
                     start := min i (min noun_i hi), stop := max i (max noun_i hi),
                     highlight_spans := [(i, i), (noun_i, noun_i), (hi, hi)],
                     confidence := 86,
                     trigger := [("ad_index", .vNat i), ("noun_index", .vNat noun_i),
                                 ("gerundive_index", .vNat hi),
                                 ("rule", .vStr "ad->gerundive + agreeing_noun")] }
        else none

/-- Source's `tag_gerund_gerundive_flip(tokens)`. -/
def tag_gerund_gerundive_flip (tokens : List Token) : List Tag :=
  tag_flip_gerund_obj tokens ++ tag_flip_ad tokens

/-- Ascending string order used by Python `sorted` on trigger items (ASCII
lexicographic). -/
def strLeB (a b : String) : Bool := !(compare a b == Ordering.gt)

/-- Insert one trigger item into a key-sorted list (stable insertion sort;
trigger keys are unique within a tag). -/
def insertTrig (kv : String × TrigVal) :
    List (String × TrigVal) → List (String × TrigVal)
  | [] => [kv]
  | h :: t => if strLeB kv.1 h.1 then kv :: h :: t else h :: insertTrig kv t

/-- Sort trigger items by key (`tuple(sorted(trigger.items()))`). -/
def sortTrig (l : List (String × TrigVal)) : List (String × TrigVal) :=
  l.foldr insertTrig []

/-- The deduplication identity key:
`(type, subtype, highlight_spans, sorted trigger items)`. -/
abbrev TagKey := String × Option String × List (Nat × Nat) × List (String × TrigVal)

/-- Key of one tag. -/
def tagKey (t : Tag) : TagKey :=
  (t.type, t.subtype, t.highlight_spans, sortTrig t.trigger)

/-- Loop of `dedup_tags` with its seen-set. -/
def dedupGo : List Tag → List TagKey → List Tag
  | [], _ => []
  | t :: rest, seen =>
    let k := tagKey t
    if seen.contains k then dedupGo rest seen
    else t :: dedupGo rest (k :: seen)

/-- Source's `dedup_tags(tag_list)`: first-seen tag wins, order preserved. -/
def dedup_tags (tag_list : List Tag) : List Tag := dedupGo tag_list []

/-- The per-sentence driver: run the detectors in the fixed source order
over one token list, concatenate, deduplicate. -/
def tagSentence (tokens : List Token) : List Tag :=
  dedup_tags
    (tag_cum_clauses tokens ++ tag_ablative_absolutes tokens ++
      tag_indirect_statements tokens ++ tag_purpose_clauses tokens ++
      tag_relative_clauses tokens ++ tag_gerunds_and_gerundives tokens ++
      tag_gerund_gerundive_flip tokens ++ tag_conditionals tokens)

/-!
Concrete token sequences used by the worked scenarios and witnesses.
Feature bags use the dictionary encoding.
-/

/-- The worked cum-clause scenario: "cum Caesar in Galliam celeriter
venisset ." with "cum" at index 0 (SCONJ, `mark`, head 6) and "venisset" at
index 5 (finite subjunctive, Tense=Past, Aspect=Perf), final strong stop at
index 6. -/
def tokensCumScenario : List Token :=
  [ { text := some "cum", lemma_ := some "cum", upos := some "SCONJ",
      head := some 6, deprel := some "mark" },
    { text := some "Caesar", lemma_ := some "Caesar", upos := some "PROPN",
      feats := .fdict [("Case", "Nom"), ("Gender", "Masc"), ("Number", "Sing")],
      head := some 6, deprel := some "nsubj" },
    { text := some "in", lemma_ := some "in", upos := some "ADP",
      head := some 4, deprel := some "case" },
    { text := some "Galliam", lemma_ := some "Gallia", upos := some "PROPN",
      feats := .fdict [("Case", "Acc"), ("Gender", "Fem"), ("Number", "Sing")],
      head := some 6, deprel := some "obl" },
    { text := some "celeriter", lemma_ := some "celeriter", upos := some "ADV",
      head := some 6, deprel := some "advmod" },
    { text := some "venisset", lemma_ := some "venio", upos := some "VERB",
      feats := .fdict [("Mood", "Sub"), ("Tense", "Past"), ("Aspect", "Perf"),
                       ("VerbForm", "Fin"), ("Voice", "Act")],
      head := some 0, deprel := some "root" },
    { text := some ".", lemma_ := some ".", upos := some "PUNCT",
      head := some 6, deprel := some "punct" } ]

/-- A sentence whose "cum" marker follows its governed verb with a comma in
between: the cum-clause span is computed from the verb while the tag start
is the marker, so `start > end`. -/
def tokensMarkerAfterVerb : List Token :=
  [ { text := some "venisset", lemma_ := some "venio", upos := some "VERB",
      feats := .fdict [("Mood", "Sub")], head := some 0, deprel := some "root" },
    { text := some ",", lemma_ := some ",", upos := some "PUNCT",
      head := some 1, deprel := some "punct" },
    { text := some "cum", lemma_ := some "cum", upos := some "SCONJ",
      head := some 1, deprel := some "mark" } ]

/-- The worked conditional scenario: "si id fecisset , eum punivisset" with
both verbs pluperfect subjunctive, direct discourse. -/
def tokensCondScenario : List Token :=
  [ { text := some "si", lemma_ := some "si", upos := some "SCONJ",
      head := some 3, deprel := some "mark" },
    { text := some "id", lemma_ := some "is", upos := some "PRON",
      feats := .fdict [("Case", "Acc"), ("Gender", "Neut"), ("Number", "Sing")],
      head := some 3, deprel := some "obj" },
    { text := some "fecisset", lemma_ := some "facio", upos := some "VERB",
      feats := .fdict [("Mood", "Sub"), ("Tense", "Pqp"), ("VerbForm", "Fin"),
                       ("Voice", "Act")],
      head := some 6, deprel := some "advcl" },
    { text := some ",", lemma_ := some ",", upos := some "PUNCT",
      head := some 6, deprel := some "punct" },
    { text := some "eum", lemma_ := some "is", upos := some "PRON",
      feats := .fdict [("Case", "Acc"), ("Gender", "Masc"), ("Number", "Sing")],
      head := some 6, deprel := some "obj" },
    { text := some "punivisset", lemma_ := some "punio", upos := some "VERB",
      feats := .fdict [("Mood", "Sub"), ("Tense", "Pqp"), ("VerbForm", "Fin"),
                       ("Voice", "Act")],
      head := some 0, deprel := some "root" } ]

/-- Protasis verb (future indicative) plus a bare infinitive apodosis whose
surface form carries no tense clue: the inferred infinitive time is
"Pres". -/
def tokensInfPlain : List Token :=
  [ { text := some "veniet", lemma_ := some "venio", upos := some "VERB",
      feats := .fdict [("Mood", "Ind"), ("Tense", "Fut"), ("VerbForm", "Fin")],
      head := some 0, deprel := some "root" },
    { text := some "ducere", lemma_ := some "duco", upos := some "VERB",
      feats := .fdict [("VerbForm", "Inf")],
      head := some 0, deprel := some "xcomp" } ]

/-- Same shape, but the apodosis infinitive is "fore" (lemma "sum"): its
normalized signature is identical to the previous sentence's, yet the
inferred infinitive time is "Fut". -/
def tokensInfFore : List Token :=
  [ { text := some "veniet", lemma_ := some "venio", upos := some "VERB",
      feats := .fdict [("Mood", "Ind"), ("Tense", "Fut"), ("VerbForm", "Fin")],
      head := some 0, deprel := some "root" },
    { text := some "fore", lemma_ := some "sum", upos := some "VERB",
      feats := .fdict [("VerbForm", "Inf")],
      head := some 0, deprel := some "xcomp" } ]

/-- A fixed indirect-discourse record shared by the two sentences above. -/
def discIndirect : Discourse :=
  { statement := "indirect", sequence := some "primary",
    head_verb_index := Option.none, head_verb_tense := Option.none,
    discourse := "indirect_primary", reason := "headverb_sentence_unit" }

/-- An ablative absolute with full gender/number agreement ("urbe capta"):
noun at index 0, participle at index 1 heading it. -/
def tokensAblAbs : List Token :=
  [ { text := some "urbe", lemma_ := some "urbs", upos := some "NOUN",
      feats := .fdict [("Case", "Abl"), ("Gender", "Fem"), ("Number", "Sing")],
      head := some 2, deprel := some "nsubj" },
    { text := some "capta", lemma_ := some "capio", upos := some "VERB",
      feats := .fdict [("Case", "Abl"), ("Gender", "Fem"), ("Number", "Sing"),
                       ("VerbForm", "Part"), ("Voice", "Pass"), ("Aspect", "Perf")],
      head := some 0, deprel := some "advcl" } ]

/-- A copula with two participial children: the first carries no voice or
aspect, the second is a perfect passive participle.  The source only
inspects the first participle child, so no periphrastic signature fires. -/
def tokensSumTwoParts : List Token :=
  [ { text := some "est", lemma_ := some "sum", upos := some "AUX",
      feats := .fdict [("Mood", "Ind"), ("Tense", "Pres"), ("VerbForm", "Fin")],
      head := some 0, deprel := some "root" },
    { text := some "volens", lemma_ := some "volo", upos := some "VERB",
      feats := .fdict [("VerbForm", "Part")],
      head := some 1, deprel := some "advcl" },
    { text := some "factus", lemma_ := some "facio", upos := some "VERB",
      feats := .fdict [("VerbForm", "Part"), ("Voice", "Pass"), ("Aspect", "Perf")],
      head := some 1, deprel := some "xcomp" } ]

/-- The plain perfect passive periphrastic "factus est": copula at index 0,
perfect passive participle at index 1. -/
def tokensSumPPP : List Token :=
  [ { text := some "est", lemma_ := some "sum", upos := some "AUX",
      feats := .fdict [("Mood", "Ind"), ("Tense", "Pres"), ("VerbForm", "Fin")],
      head := some 0, deprel := some "root" },
    { text := some "factus", lemma_ := some "facio", upos := some "VERB",
      feats := .fdict [("VerbForm", "Part"), ("Voice", "Pass"), ("Aspect", "Perf")],
      head := some 1, deprel := some "xcomp" } ]

/-- The cum-clause scenario with the verb's `VerbForm` annotation removed:
`is_finite_verb` treats the unspecified form as finite, so the detector
still fires. -/
def tokensCumNoVerbForm : List Token :=
  [ { text := some "cum", lemma_ := some "cum", upos := some "SCONJ",
      head := some 3, deprel := some "mark" },
    { text := some "Caesar", lemma_ := some "Caesar", upos := some "PROPN",
      feats := .fdict [("Case", "Nom"), ("Gender", "Masc"), ("Number", "Sing")],
      head := some 3, deprel := some "nsubj" },
    { text := some "venisset", lemma_ := some "venio", upos := some "VERB",
      feats := .fdict [("Mood", "Sub"), ("Tense", "Past")],
      head := some 0, deprel := some "root" },
    { text := some ".", lemma_ := some ".", upos := some "PUNCT",
      head := some 3, deprel := some "punct" } ]

/-- A neuter-singular future passive participle with no agreeing noun-ish
head: a gerund ("ad pugnandum" without the noun). -/
def tokensGerund : List Token :=
  [ { text := some "pugnandum", lemma_ := some "pugno", upos := some "VERB",
      feats := .fstr "Aspect=Prosp|Case=Acc|Gender=Neut|Number=Sing|VerbForm=Part|Voice=Pass",
      head := some 0, deprel := some "root" } ]

/-- Bounds of the `find_next_boundary` loop: within the iteration budget the
result stays in `[start_i, len(tokens))`. -/
theorem fnbGo_bounds (tokens : List Token) (start_i : Nat)
    (hs : start_i < tokens.length) :
    ∀ k i, start_i ≤ i → i + k ≤ tokens.length →
      start_i ≤ fnbGo tokens start_i i k ∧ fnbGo tokens start_i i k < tokens.length := by
  intro k
  induction k with
  | zero =>
    intro i _ _
    unfold fnbGo
    omega
  | succ k ih =>
    intro i hsi hik
    unfold fnbGo
    dsimp only
    split
    · constructor
      · exact Nat.le_max_left _ _
      · have h1 : i - 1 < tokens.length := by omega
        omega
    · split
      · rename_i hcond
        rw [Bool.and_eq_true] at hcond
        have hne : i ≠ start_i := by simpa using hcond.2
        omega
      · exact ih (i + 1) (by omega) (by omega)

/-- Source's `find_next_boundary` stays within `[start_i, len(tokens))` for an
in-range start. -/
theorem find_next_boundary_bounds (tokens : List Token) (start_i : Nat)
    (hs : start_i < tokens.length) :
    start_i ≤ find_next_boundary tokens start_i ∧
      find_next_boundary tokens start_i < tokens.length := by
  unfold find_next_boundary
  exact fnbGo_bounds tokens start_i hs (tokens.length - start_i) start_i
    (Nat.le_refl _) (by omega)

/-- The left segment scan never moves right. -/
theorem segLeft_le (tokens : List Token) : ∀ i, segLeft tokens i ≤ i := by
  intro i
  induction i with
  | zero => exact Nat.le_refl _
  | succ l ih =>
    unfold segLeft
    split
    · exact Nat.le_refl _
    · exact Nat.le_succ_of_le ih

/-- The right segment scan stays within its iteration budget. -/
theorem segRightGo_bounds (tokens : List Token) :
    ∀ k r, r ≤ segRightGo tokens r k ∧ segRightGo tokens r k ≤ r + k := by
  intro k
  induction k with
  | zero =>
    intro r
    unfold segRightGo
    omega
  | succ k ih =>
    intro r
    unfold segRightGo
    split
    · omega
    · have := ih (r + 1)
      omega

/-- Source's `segment_bounds` brackets its argument. -/
theorem segment_bounds_le (tokens : List Token) (i : Nat) :
    (segment_bounds tokens i).1 ≤ i ∧ i ≤ (segment_bounds tokens i).2 := by
  unfold segment_bounds
  exact ⟨segLeft_le tokens i, (segRightGo_bounds tokens (tokens.length - 1 - i) i).1⟩

/-- The right segment bound of an in-range index is in range. -/
theorem segment_bounds_snd_lt (tokens : List Token) (i : Nat)
    (h : i < tokens.length) : (segment_bounds tokens i).2 < tokens.length := by
  unfold segment_bounds
  have := segRightGo_bounds tokens (tokens.length - 1 - i) i
  omega

/-- Source's `clampRange` either degenerates to the centre or produces an ordered
pair inside the segment. -/
theorem clampRange_spec (center seg_start seg_end left0 right0 : Nat) :
    clampRange center seg_start seg_end left0 right0 = (center, center) ∨
      (seg_start ≤ (clampRange center seg_start seg_end left0 right0).1 ∧
        (clampRange center seg_start seg_end left0 right0).1
          ≤ (clampRange center seg_start seg_end left0 right0).2 ∧
        (clampRange center seg_start seg_end left0 right0).2 ≤ seg_end) := by
  simp only [clampRange]
  split
  · exact Or.inl rfl
  · rename_i hle
    right
    exact ⟨Nat.le_max_left _ _, Nat.le_of_not_lt hle, Nat.min_le_left _ _⟩

/-- Source's `clampRange` output stays in range for an in-range centre and segment
end. -/
theorem clampRange_bounds (center seg_start seg_end left0 right0 n : Nat)
    (hc : center < n) (he : seg_end < n) :
    (clampRange center seg_start seg_end left0 right0).1 < n ∧
      (clampRange center seg_start seg_end left0 right0).2 < n := by
  rcases clampRange_spec center seg_start seg_end left0 right0 with h | h
  · rw [h]
    exact ⟨hc, hc⟩
  · omega

/-- Source's `comma_clause_bounds` of an in-range centre inside an in-range segment
returns an in-range pair. -/
theorem comma_clause_bounds_bounds (tokens : List Token)
    (center seg_start seg_end : Nat) (incl : Bool)
    (hc : center < tokens.length) (he : seg_end < tokens.length) :
    (comma_clause_bounds tokens center seg_start seg_end incl).1 < tokens.length ∧
      (comma_clause_bounds tokens center seg_start seg_end incl).2 < tokens.length := by
  simp only [comma_clause_bounds]
  exact clampRange_bounds center seg_start seg_end _ _ tokens.length hc he

/-- Every child index recorded by `build_children` is in range. -/
theorem mem_childGet_lt (tokens : List Token) (j x : Nat)
    (h : x ∈ childGet (build_children tokens) j) : x < tokens.length := by
  unfold childGet build_children at h
  by_cases hj : j < tokens.length
  · rw [List.getD_eq_getElem _ _ (by simpa using hj)] at h
    rw [List.getElem_map, List.getElem_range] at h
    have := List.mem_filter.mp h
    exact List.mem_range.mp this.1
  · rw [List.getD_eq_default] at h
    · cases h
    · simpa using hj

/-- Membership in a child list characterised by the head pointer. -/
theorem mem_childGet_iff (tokens : List Token) (j x : Nat) (hj : j < tokens.length) :
    x ∈ childGet (build_children tokens) j ↔
      x < tokens.length ∧
        headTarget (getTok tokens x) tokens.length = some j := by
  unfold childGet build_children
  rw [List.getD_eq_getElem _ _ (by simpa using hj)]
  rw [List.getElem_map, List.getElem_range]
  rw [List.mem_filter]
  simp [List.mem_range]

/-- Source's `headTarget` only returns in-range indices. -/
theorem headTarget_lt (tok : Token) (n v : Nat)
    (h : headTarget tok n = some v) : v < n := by
  unfold headTarget at h
  split at h
  · cases h
  · split at h
    · cases h
    · split at h
      · rename_i hb
        injection h with h
        omega
      · cases h

/-- The bounded head climb only returns in-range indices. -/
theorem climbGo_lt (tokens : List Token) (i : Nat) :
    ∀ hops cur seen vi, (∀ w, vi = some w → w < tokens.length) →
      ∀ v, climbGo tokens i cur seen vi hops = some v → v < tokens.length := by
  intro hops
  induction hops with
  | zero =>
    intro cur seen vi hvi v hv
    unfold climbGo at hv
    exact hvi v hv
  | succ hops ih =>
    intro cur seen vi hvi v hv
    unfold climbGo at hv
    dsimp only at hv
    split at hv
    · exact hvi v hv
    · rename_i hI heq
      split at hv
      · exact hvi v hv
      · split at hv
        · exact hvi v hv
        · rename_i hcond
          have hlt : (hI - 1).toNat < tokens.length := by
            by_contra hno
            refine hcond ?_
            rw [Bool.or_eq_true]
            right
            rw [Bool.not_eq_true', decide_eq_false_iff_not]
            exact hno
          split at hv
          · exact hvi v hv
          · split at hv
            · split at hv
              · injection hv with hv
                omega
              · refine ih _ _ _ ?_ v hv
                intro w hw
                injection hw with hw
                omega
            · exact ih _ _ _ hvi v hv

/-- Source's `climb_to_verb` only returns in-range indices. -/
theorem climb_to_verb_lt (tokens : List Token) (i v : Nat)
    (h : climb_to_verb tokens i = some v) : v < tokens.length := by
  unfold climb_to_verb at h
  exact climbGo_lt tokens i 6 i [] Option.none (by intro w hw; cases hw) v h

/-- Generic membership lemma for the source's running-best folds: a fold
whose body either keeps the accumulator or replaces it by the current
element yields an element of the list (or the initial accumulator). -/
theorem foldl_opt_mem (f : Option Nat → Nat → Option Nat)
    (hf : ∀ acc a, f acc a = acc ∨ f acc a = some a) :
    ∀ (l : List Nat) (acc : Option Nat) (j : Nat),
      l.foldl f acc = some j → j ∈ l ∨ acc = some j := by
  intro l
  induction l with
  | nil =>
    intro acc j h
    right
    exact h
  | cons a t ih =>
    intro acc j h
    rw [List.foldl_cons] at h
    rcases ih (f acc a) j h with hmem | hacc
    · exact Or.inl (List.mem_cons_of_mem a hmem)
    · rcases hf acc a with he | he
      · right
        rw [← he]
        exact hacc
      · left
        rw [he] at hacc
        injection hacc with hacc
        exact hacc ▸ List.mem_cons_self a t

/-- Source's `pickBest` returns an element of its input list. -/
theorem pickBest_mem (score : Nat → Int) (l : List Nat) (j : Nat)
    (h : pickBest score l = some j) : j ∈ l := by
  unfold pickBest at h
  refine Or.resolve_right (foldl_opt_mem _ ?_ l Option.none j h)
    (by intro hc; cases hc)
  intro acc a
  cases acc with
  | none => exact Or.inr rfl
  | some b =>
    dsimp only
    split
    · exact Or.inr rfl
    · exact Or.inl rfl

/-- Source's `argminDist` returns an element of its input list. -/
theorem argminDist_mem (anchor : Nat) (l : List Nat) (j : Nat)
    (h : argminDist anchor l = some j) : j ∈ l := by
  unfold argminDist at h
  refine Or.resolve_right (foldl_opt_mem _ ?_ l Option.none j h)
    (by intro hc; cases hc)
  intro acc a
  cases acc with
  | none => exact Or.inr rfl
  | some b =>
    dsimp only
    split
    · exact Or.inr rfl
    · exact Or.inl rfl

/-- Source's `pick_apodosis` returns an index inside the protasis verb's segment. -/
theorem pick_apodosis_mem (tokens : List Token) (children : List (List Nat))
    (pv_i : Nat) (nodes blocked : List Nat) (prefer : Option Nat) (forb : List Nat)
    (j : Nat)
    (h : pick_apodosis tokens children pv_i nodes blocked prefer forb = some j) :
    (segment_bounds tokens pv_i).1 ≤ j ∧ j ≤ (segment_bounds tokens pv_i).2 := by
  unfold pick_apodosis at h
  dsimp only at h
  have hseg := segment_bounds_le tokens pv_i
  split at h
  · rename_i hafter
    have hj := pickBest_mem _ _ _ hafter
    have hj2 := (List.mem_filter.mp hj).1
    have hj3 := (List.mem_filter.mp hj2).1
    have := List.mem_range'_1.mp hj3
    injection h with h
    subst h
    omega
  · have hj := pickBest_mem _ _ _ h
    have hj2 := (List.mem_filter.mp hj).1
    have hj3 := (List.mem_filter.mp hj2).1
    have := List.mem_range'_1.mp hj3
    omega

/-- Deduplication only removes tags: members of the output are members of
the input. -/
theorem mem_dedupGo (t : Tag) :
    ∀ (l : List Tag) (seen : List TagKey), t ∈ dedupGo l seen → t ∈ l := by
  intro l
  induction l with
  | nil =>
    intro seen h
    cases h
  | cons a rest ih =>
    intro seen h
    unfold dedupGo at h
    dsimp only at h
    split at h
    · exact List.mem_cons_of_mem a (ih _ h)
    · rcases List.mem_cons.mp h with h1 | hm
      · rw [h1]
        exact List.mem_cons_self _ _
      · exact List.mem_cons_of_mem a (ih _ hm)

/-- Source's `dedup_tags` output is contained in its input. -/
theorem mem_dedup_tags (t : Tag) (l : List Tag) (h : t ∈ dedup_tags l) : t ∈ l :=
  mem_dedupGo t l [] h

/-- The running minimum over a list never exceeds its seed. -/
theorem natListMin_le (x : Nat) (l : List Nat) : natListMin x l ≤ x := by
  unfold natListMin
  induction l generalizing x with
  | nil => exact Nat.le_refl _
  | cons a t ih =>
    rw [List.foldl_cons]
    exact Nat.le_trans (ih (min x a)) (Nat.min_le_left x a)

/-- The running maximum over a bounded list with a bounded seed is bounded. -/
theorem natListMax_lt (x n : Nat) (l : List Nat) (hx : x < n)
    (hl : ∀ y ∈ l, y < n) : natListMax x l < n := by
  unfold natListMax
  induction l generalizing x with
  | nil => exact hx
  | cons a t ih =>
    rw [List.foldl_cons]
    refine ih (max x a) ?_ ?_
    · have := hl a (List.mem_cons_self a t)
      omega
    · intro y hy
      exact hl y (List.mem_cons_of_mem a hy)

/-- Validity of one tag for a sentence of `n` tokens: `start`, `stop` and
every highlight-span index are token positions. -/
def validTag (n : Nat) (t : Tag) : Prop :=
  t.start < n ∧ t.stop < n ∧ ∀ p ∈ t.highlight_spans, p.1 < n ∧ p.2 < n

/-- Every cum-clause tag has in-range indices. -/
theorem tag_cum_clauses_valid (tokens : List Token) (t : Tag)
    (ht : t ∈ tag_cum_clauses tokens) : validTag tokens.length t := by
  simp only [tag_cum_clauses, List.mem_filterMap, List.mem_range] at ht
  obtain ⟨i, hi, hf⟩ := ht
  split at hf
  · exact Option.noConfusion hf
  · split at hf
    · exact Option.noConfusion hf
    · split at hf
      · exact Option.noConfusion hf
      · split at hf
        · exact Option.noConfusion hf
        · rename_i v_i heq
          have hv : v_i < tokens.length := headTarget_lt _ _ _ heq
          split at hf
          · exact Option.noConfusion hf
          · split at hf
            · injection hf with hf
              subst hf
              have hfnb := find_next_boundary_bounds tokens v_i hv
              refine ⟨hi, ?_, by intro p hp; cases hp⟩
              dsimp only
              split
              · have := Nat.min_le_left (find_next_boundary tokens v_i)
                  (segment_bounds tokens v_i).2
                omega
              · omega
            · exact Option.noConfusion hf

/-- Every ablative-absolute tag has in-range indices. -/
theorem tag_ablative_absolutes_valid (tokens : List Token) (t : Tag)
    (ht : t ∈ tag_ablative_absolutes tokens) : validTag tokens.length t := by
  simp only [tag_ablative_absolutes, List.mem_filterMap, List.mem_range] at ht
  obtain ⟨i, hi, hf⟩ := ht
  split at hf
  · exact Option.noConfusion hf
  · split at hf
    · exact Option.noConfusion hf
    · split at hf
      · exact Option.noConfusion hf
      · split at hf
        · exact Option.noConfusion hf
        · rename_i found_n heq
          have hfn : found_n < tokens.length :=
            mem_childGet_lt tokens i found_n (List.mem_of_find?_eq_some heq)
          injection hf with hf
          subst hf
          refine ⟨?_, ?_, ?_⟩
          · dsimp only
            omega
          · dsimp only
            omega
          · intro p hp
            simp only [List.mem_cons, List.not_mem_nil, or_false] at hp
            rcases hp with rfl | rfl
            · exact ⟨hi, hi⟩
            · exact ⟨hfn, hfn⟩

/-- Every indirect-statement tag has in-range indices. -/
theorem tag_indirect_statements_valid (tokens : List Token) (t : Tag)
    (ht : t ∈ tag_indirect_statements tokens) : validTag tokens.length t := by
  simp only [tag_indirect_statements, List.mem_filterMap, List.mem_range] at ht
  obtain ⟨i, hi, hf⟩ := ht
  split at hf
  · exact Option.noConfusion hf
  · split at hf
    · exact Option.noConfusion hf
    · split at hf
      · exact Option.noConfusion hf
      · rename_i inf_i heqinf
        have hinf : inf_i < tokens.length :=
          mem_childGet_lt tokens i inf_i (List.mem_of_find?_eq_some heqinf)
        split at hf
        · exact Option.noConfusion hf
        · rename_i best_acc heqba
          have hba : best_acc < tokens.length := by
            split at heqba
            · rename_i x heqx
              injection heqba with heqba
              subst heqba
              exact mem_childGet_lt tokens inf_i x (List.mem_of_find?_eq_some heqx)
            · exact List.mem_range.mp (List.mem_of_find?_eq_some heqba)
          split at hf
          · exact Option.noConfusion hf
          · have hmaxlt : max best_acc inf_i < tokens.length := by omega
            have hfnb := find_next_boundary_bounds tokens (max best_acc inf_i) hmaxlt
            have hseg2 := segment_bounds_snd_lt tokens inf_i hinf
            split at hf
            · split at hf
              · exact Option.noConfusion hf
              · injection hf with hf
                subst hf
                refine ⟨by dsimp only; omega, by dsimp only; omega, ?_⟩
                intro p hp
                simp only [List.mem_cons, List.not_mem_nil, or_false] at hp
                rcases hp with rfl | rfl
                · exact ⟨hba, hba⟩
                · exact ⟨hinf, hinf⟩
            · injection hf with hf
              subst hf
              refine ⟨by dsimp only; omega, by dsimp only; omega, ?_⟩
              intro p hp
              simp only [List.mem_cons, List.not_mem_nil, or_false] at hp
              rcases hp with rfl | rfl
              · exact ⟨hba, hba⟩
              · exact ⟨hinf, hinf⟩

/-- Every ut/ne purpose or result tag has in-range indices. -/
theorem tag_purpose_ut_valid (tokens : List Token) (t : Tag)
    (ht : t ∈ tag_purpose_ut tokens) : validTag tokens.length t := by
  simp only [tag_purpose_ut, List.mem_filterMap, List.mem_range] at ht
  obtain ⟨i, hi, hf⟩ := ht
  split at hf
  · exact Option.noConfusion hf
  · split at hf
    · exact Option.noConfusion hf
    · rename_i vi heq
      have hv : vi < tokens.length := headTarget_lt _ _ _ heq
      split at hf
      · exact Option.noConfusion hf
      · split at hf
        · exact Option.noConfusion hf
        · split at hf <;>
          · injection hf with hf
            subst hf
            refine ⟨by dsimp only; omega, by dsimp only; omega, ?_⟩
            intro p hp
            simp only [List.mem_cons, List.not_mem_nil, or_false] at hp
            rcases hp with rfl | rfl
            · exact ⟨hi, hi⟩
            · exact ⟨hv, hv⟩

/-- Every ad-gerund(ive) purpose tag has in-range indices. -/
theorem tag_purpose_ad_valid (tokens : List Token) (t : Tag)
    (ht : t ∈ tag_purpose_ad tokens) : validTag tokens.length t := by
  simp only [tag_purpose_ad, List.mem_filterMap, List.mem_range] at ht
  obtain ⟨i, hi, hf⟩ := ht
  split at hf
  · exact Option.noConfusion hf
  · split at hf
    · exact Option.noConfusion hf
    · split at hf
      · exact Option.noConfusion hf
      · split at hf
        · exact Option.noConfusion hf
        · rename_i hi0 heq
          have hh : hi0 < tokens.length := headTarget_lt _ _ _ heq
          split at hf
          · split at hf
            · exact Option.noConfusion hf
            · injection hf with hf
              subst hf
              refine ⟨by dsimp only; omega, by dsimp only; omega, ?_⟩
              intro p hp
              simp only [List.mem_cons, List.not_mem_nil, or_false] at hp
              rcases hp with rfl | rfl
              · exact ⟨hi, hi⟩
              · exact ⟨hh, hh⟩
          · split at hf
            · split at hf
              · exact Option.noConfusion hf
              · rename_i best_g heqg
                have hbg : best_g < tokens.length := by
                  refine mem_childGet_lt tokens hi0 best_g ?_
                  refine Or.resolve_right
                    (foldl_opt_mem _ ?_ _ Option.none best_g heqg)
                    (by intro hc; cases hc)
                  intro acc a
                  dsimp only
                  split
                  · exact Or.inl rfl
                  · split
                    · exact Or.inl rfl
                    · cases acc with
                      | none =>
                        dsimp only
                        split
                        · exact Or.inr rfl
                        · exact Or.inl rfl
                      | some b =>
                        dsimp only
                        split
                        · exact Or.inr rfl
                        · exact Or.inl rfl
                split at hf
                · exact Option.noConfusion hf
                · injection hf with hf
                  subst hf
                  refine ⟨by dsimp only; omega, by dsimp only; omega, ?_⟩
                  intro p hp
                  simp only [List.mem_cons, List.not_mem_nil, or_false] at hp
                  rcases hp with rfl | rfl
                  · exact ⟨hi, hi⟩
                  · exact ⟨hbg, hbg⟩
            · exact Option.noConfusion hf

/-- Every subjunctive-relative-clause tag has in-range indices. -/
theorem tag_purpose_rel_valid (tokens : List Token) (t : Tag)
    (ht : t ∈ tag_purpose_rel tokens) : validTag tokens.length t := by
  simp only [tag_purpose_rel, List.mem_filterMap, List.mem_range] at ht
  obtain ⟨i, hi, hf⟩ := ht
  split at hf
  · exact Option.noConfusion hf
  · split at hf
    · exact Option.noConfusion hf
    · split at hf
      · exact Option.noConfusion hf
      · split at hf
        · exact Option.noConfusion hf
        · rename_i vi heq
          have hv : vi < tokens.length := climb_to_verb_lt tokens i vi heq
          split at hf
          · exact Option.noConfusion hf
          · split at hf
            · exact Option.noConfusion hf
            · injection hf with hf
              subst hf
              refine ⟨by dsimp only; omega, by dsimp only; omega, ?_⟩
              intro p hp
              simp only [List.mem_cons, List.not_mem_nil, or_false] at hp
              rcases hp with rfl | rfl
              · exact ⟨hi, hi⟩
              · exact ⟨hv, hv⟩

/-- Every relative-clause tag has in-range indices. -/
theorem tag_relative_clauses_valid (tokens : List Token) (t : Tag)
    (ht : t ∈ tag_relative_clauses tokens) : validTag tokens.length t := by
  simp only [tag_relative_clauses, List.mem_filterMap, List.mem_range] at ht
  obtain ⟨i, hi, hf⟩ := ht
  split at hf
  · exact Option.noConfusion hf
  · split at hf
    · exact Option.noConfusion hf
    · split at hf
      · exact Option.noConfusion hf
      · split at hf
        · exact Option.noConfusion hf
        · rename_i vi heq
          have hv : vi < tokens.length := climb_to_verb_lt tokens i vi heq
          split at hf
          · exact Option.noConfusion hf
          · split at hf
            · injection hf with hf
              subst hf
              refine ⟨by dsimp only; omega, by dsimp only; omega, ?_⟩
              intro p hp
              simp only [List.mem_cons, List.not_mem_nil, or_false] at hp
              rcases hp with rfl | rfl
              · exact ⟨hi, hi⟩
              · exact ⟨hv, hv⟩
            · split at hf
              · injection hf with hf
                subst hf
                refine ⟨by dsimp only; omega, by dsimp only; omega, ?_⟩
                intro p hp
                simp only [List.mem_cons, List.not_mem_nil, or_false] at hp
                rcases hp with rfl | rfl
                · exact ⟨hi, hi⟩
                · exact ⟨hv, hv⟩
              · exact Option.noConfusion hf

/-- Every gerund/gerundive tag has in-range indices. -/
theorem tag_gerunds_valid (tokens : List Token) (t : Tag)
    (ht : t ∈ tag_gerunds_and_gerundives tokens) : validTag tokens.length t := by
  simp only [tag_gerunds_and_gerundives, List.mem_filterMap, List.mem_range] at ht
  obtain ⟨i, hi, hf⟩ := ht
  split at hf
  · injection hf with hf
    subst hf
    exact ⟨hi, hi, by intro p hp; cases hp⟩
  · split at hf
    · injection hf with hf
      subst hf
      exact ⟨hi, hi, by intro p hp; cases hp⟩
    · exact Option.noConfusion hf

/-- Helper: the running-best folds of the flip detector and the ad-gerundive
scan keep or replace the accumulator, so a `some` result is a list member. -/
theorem flip_fold_mem (g : Nat → Bool) (agreeTest : Nat → Bool)
    (hi0 : Nat) (l : List Nat) (j : Nat)
    (h : l.foldl
      (fun acc ci =>
        if !(g ci) then acc
        else if !(agreeTest ci) then acc
        else
          let dist := max ci hi0 - min ci hi0
          match acc with
          | Option.none => if dist < 1000000000 then some ci else Option.none
          | some b => if dist < (max b hi0 - min b hi0) then some ci else acc)
      Option.none = some j) : j ∈ l := by
  refine Or.resolve_right (foldl_opt_mem _ ?_ l Option.none j h)
    (by intro hc; cases hc)
  intro acc a
  dsimp only
  split
  · exact Or.inl rfl
  · split
    · exact Or.inl rfl
    · cases acc with
      | none =>
        dsimp only
        split
        · exact Or.inr rfl
        · exact Or.inl rfl
      | some b =>
        dsimp only
        split
        · exact Or.inr rfl
        · exact Or.inl rfl

/-- Every gerund-object flip tag has in-range indices. -/
theorem tag_flip_gerund_obj_valid (tokens : List Token) (t : Tag)
    (ht : t ∈ tag_flip_gerund_obj tokens) : validTag tokens.length t := by
  simp only [tag_flip_gerund_obj, List.mem_filterMap, List.mem_range] at ht
  obtain ⟨i, hi, hf⟩ := ht
  split at hf
  · exact Option.noConfusion hf
  · split at hf
    · exact Option.noConfusion hf
    · rename_i best_obj heq
      have hbo : best_obj < tokens.length := by
        have hmem := argminDist_mem _ _ _ heq
        have := (List.mem_filter.mp hmem).1
        exact mem_childGet_lt tokens i best_obj this
      injection hf with hf
      subst hf
      refine ⟨by dsimp only; omega, by dsimp only; omega, ?_⟩
      intro p hp
      simp only [List.mem_cons, List.not_mem_nil, or_false] at hp
      rcases hp with rfl | rfl
      · exact ⟨hi, hi⟩
      · exact ⟨hbo, hbo⟩

/-- Every ad-phrase flip tag has in-range indices. -/
theorem tag_flip_ad_valid (tokens : List Token) (t : Tag)
    (ht : t ∈ tag_flip_ad tokens) : validTag tokens.length t := by
  simp only [tag_flip_ad, List.mem_filterMap, List.mem_range] at ht
  obtain ⟨i, hi, hf⟩ := ht
  split at hf
  · exact Option.noConfusion hf
  · split at hf
    · exact Option.noConfusion hf
    · split at hf
      · exact Option.noConfusion hf
      · split at hf
        · exact Option.noConfusion hf
        · rename_i hi0 heq
          have hh : hi0 < tokens.length := headTarget_lt _ _ _ heq
          split at hf
          · split at hf
            · exact Option.noConfusion hf
            · rename_i best_g heqg
              have hbg : best_g < tokens.length :=
                mem_childGet_lt tokens hi0 best_g (flip_fold_mem _ _ hi0 _ _ heqg)
              split at hf
              · exact Option.noConfusion hf
              · injection hf with hf
                subst hf
                refine ⟨by dsimp only; omega, by dsimp only; omega, ?_⟩
                intro p hp
                simp only [List.mem_cons, List.not_mem_nil, or_false] at hp
                rcases hp with rfl | rfl | rfl
                · exact ⟨hi, hi⟩
                · exact ⟨hh, hh⟩
                · exact ⟨hbg, hbg⟩
          · split at hf
            · split at hf
              · split at hf
                · exact Option.noConfusion hf
                · injection hf with hf
                  subst hf
                  refine ⟨by dsimp only; omega, by dsimp only; omega, ?_⟩
                  intro p hp
                  simp only [List.mem_cons, List.not_mem_nil, or_false] at hp
                  rcases hp with rfl | rfl
                  · exact ⟨hi, hi⟩
                  · exact ⟨hh, hh⟩
              · rename_i noun_i heqn
                have hn : noun_i < tokens.length :=
                  mem_childGet_lt tokens hi0 noun_i (flip_fold_mem _ _ hi0 _ _ heqn)
                split at hf
                · exact Option.noConfusion hf
                · injection hf with hf
                  subst hf
                  refine ⟨by dsimp only; omega, by dsimp only; omega, ?_⟩
                  intro p hp
                  simp only [List.mem_cons, List.not_mem_nil, or_false] at hp
                  rcases hp with rfl | rfl | rfl
                  · exact ⟨hi, hi⟩
                  · exact ⟨hn, hn⟩
                  · exact ⟨hh, hh⟩
            · exact Option.noConfusion hf

/-- Every collected protasis has in-range marker, verb and segment fields. -/
theorem collect_protases_wf (tokens : List Token) (p : Protasis)
    (hp : p ∈ collect_protases tokens) :
    p.si_index < tokens.length ∧ p.pv_i < tokens.length ∧
      p.seg_start < tokens.length ∧ p.seg_end < tokens.length := by
  simp only [collect_protases, List.mem_filterMap, List.mem_range] at hp
  obtain ⟨i, hi, hf⟩ := hp
  split at hf
  · exact Option.noConfusion hf
  · split at hf
    · exact Option.noConfusion hf
    · split at hf
      · exact Option.noConfusion hf
      · rename_i pv_i heq
        have hpv : pv_i < tokens.length := headTarget_lt _ _ _ heq
        split at hf
        · exact Option.noConfusion hf
        · split at hf
          · exact Option.noConfusion hf
          · injection hf with hf
            subst hf
            have h1 := (segment_bounds_le tokens pv_i).1
            have h2 := segment_bounds_snd_lt tokens pv_i hpv
            exact ⟨hi, hpv, by dsimp only; omega, by dsimp only; omega⟩

/-- Both tags emitted for one protasis have in-range indices. -/
theorem condTagsFor_valid (tokens : List Token) (children : List (List Nat))
    (protases : List Protasis) (p : Protasis)
    (hsi : p.si_index < tokens.length) (hpv : p.pv_i < tokens.length)
    (hss : p.seg_start < tokens.length) (hse : p.seg_end < tokens.length)
    (t : Tag) (ht : t ∈ condTagsFor tokens children protases p) :
    validTag tokens.length t := by
  have hmin : natListMin p.si_index (p.pv_i :: protasisNodes p) ≤ p.si_index :=
    natListMin_le _ _
  have hsegsnd := segment_bounds_snd_lt tokens p.pv_i hpv
  simp only [condTagsFor] at ht
  split at ht
  · -- no apodosis: only the protasis tag
    simp only [List.mem_singleton] at ht
    subst ht
    refine ⟨by dsimp only; omega, ?_, ?_⟩
    · dsimp only
      have := Nat.min_le_left p.seg_end
        (natListMax p.si_index (p.pv_i :: protasisNodes p))
      omega
    · intro q hq
      simp only [List.mem_singleton] at hq
      subst hq
      constructor
      · dsimp only
        omega
      · dsimp only
        have := Nat.min_le_left p.seg_end
          (natListMax p.si_index (p.pv_i :: protasisNodes p))
        omega
  · -- an apodosis exists
    rename_i a heq
    have ha : a < tokens.length := by
      have hle : a ≤ (segment_bounds tokens p.pv_i).2 := by
        split at heq
        · split at heq
          · split at heq
            · rename_i alt halt
              dsimp only at heq
              injection heq with heq
              subst heq
              exact (pick_apodosis_mem _ _ _ _ _ _ _ _ halt).2
            · dsimp only at heq
              exact (pick_apodosis_mem _ _ _ _ _ _ _ _ heq).2
          · dsimp only at heq
            exact (pick_apodosis_mem _ _ _ _ _ _ _ _ heq).2
        · dsimp only at heq
          exact (pick_apodosis_mem _ _ _ _ _ _ _ _ heq).2
      omega
    have hcb := comma_clause_bounds_bounds tokens a p.seg_start p.seg_end true ha hse
    simp only [List.mem_cons, List.not_mem_nil, or_false] at ht
    rcases ht with ht | ht
    · subst ht
      refine ⟨by dsimp only; omega, ?_, ?_⟩
      · dsimp only
        have := Nat.min_le_left p.seg_end
          (natListMax p.si_index (p.pv_i :: protasisNodes p))
        omega
      · intro q hq
        simp only [List.mem_singleton] at hq
        subst hq
        constructor
        · dsimp only
          omega
        · dsimp only
          have := Nat.min_le_left p.seg_end
            (natListMax p.si_index (p.pv_i :: protasisNodes p))
          omega
    · subst ht
      have hspan :
          (if (comma_clause_bounds tokens a p.seg_start p.seg_end true).2 -
                (comma_clause_bounds tokens a p.seg_start p.seg_end true).1 < 1 then
            match (List.range'
                (comma_clause_bounds tokens a p.seg_start p.seg_end true).1
                ((comma_clause_bounds tokens a p.seg_start p.seg_end true).2 + 1 -
                  (comma_clause_bounds tokens a p.seg_start p.seg_end true).1)).filter
                (fun j => in_subtree tokens children a j) with
            | [] => ((comma_clause_bounds tokens a p.seg_start p.seg_end true).1,
                (comma_clause_bounds tokens a p.seg_start p.seg_end true).2)
            | j :: rest =>
              (max (comma_clause_bounds tokens a p.seg_start p.seg_end true).1
                  (natListMin j rest),
                min (comma_clause_bounds tokens a p.seg_start p.seg_end true).2
                  (natListMax j rest))
          else ((comma_clause_bounds tokens a p.seg_start p.seg_end true).1,
            (comma_clause_bounds tokens a p.seg_start p.seg_end true).2)).1
            < tokens.length ∧
          (if (comma_clause_bounds tokens a p.seg_start p.seg_end true).2 -
                (comma_clause_bounds tokens a p.seg_start p.seg_end true).1 < 1 then
            match (List.range'
                (comma_clause_bounds tokens a p.seg_start p.seg_end true).1
                ((comma_clause_bounds tokens a p.seg_start p.seg_end true).2 + 1 -
                  (comma_clause_bounds tokens a p.seg_start p.seg_end true).1)).filter
                (fun j => in_subtree tokens children a j) with
            | [] => ((comma_clause_bounds tokens a p.seg_start p.seg_end true).1,
                (comma_clause_bounds tokens a p.seg_start p.seg_end true).2)
            | j :: rest =>
              (max (comma_clause_bounds tokens a p.seg_start p.seg_end true).1
                  (natListMin j rest),
                min (comma_clause_bounds tokens a p.seg_start p.seg_end true).2
                  (natListMax j rest))
          else ((comma_clause_bounds tokens a p.seg_start p.seg_end true).1,
            (comma_clause_bounds tokens a p.seg_start p.seg_end true).2)).2
            < tokens.length := by
        split
        · split
          · exact hcb
          · rename_i j rest heqlist
            have hj : j ∈ (List.range'
                (comma_clause_bounds tokens a p.seg_start p.seg_end true).1
                ((comma_clause_bounds tokens a p.seg_start p.seg_end true).2 + 1 -
                  (comma_clause_bounds tokens a p.seg_start p.seg_end true).1)).filter
                (fun j => in_subtree tokens children a j) := by
              rw [heqlist]
              exact List.mem_cons_self _ _
            have hj2 := List.mem_range'_1.mp (List.mem_filter.mp hj).1
            have hminle : natListMin j rest ≤ j := natListMin_le _ _
            constructor
            · dsimp only
              omega
            · dsimp only
              have := Nat.min_le_left
                (comma_clause_bounds tokens a p.seg_start p.seg_end true).2
                (natListMax j rest)
              omega
        · exact hcb
      refine ⟨by dsimp only; omega, by dsimp only; omega, ?_⟩
      intro q hq
      simp only [List.mem_singleton] at hq
      subst hq
      exact ⟨by dsimp only; omega, by dsimp only; omega⟩

/-- Every conditional tag has in-range indices. -/
theorem tag_conditionals_valid (tokens : List Token) (t : Tag)
    (ht : t ∈ tag_conditionals tokens) : validTag tokens.length t := by
  simp only [tag_conditionals, List.mem_flatMap] at ht
  obtain ⟨p, hp, hmem⟩ := ht
  obtain ⟨h1, h2, h3, h4⟩ := collect_protases_wf tokens p hp
  exact condTagsFor_valid tokens (build_children tokens) (collect_protases tokens)
    p h1 h2 h3 h4 t hmem

/-- Every purpose/result/subjunctive-relative tag has in-range indices. -/
theorem tag_purpose_clauses_valid (tokens : List Token) (t : Tag)
    (ht : t ∈ tag_purpose_clauses tokens) : validTag tokens.length t := by
  unfold tag_purpose_clauses at ht
  rcases List.mem_append.mp ht with h | h
  · rcases List.mem_append.mp h with h2 | h2
    · exact tag_purpose_ut_valid tokens t h2
    · exact tag_purpose_ad_valid tokens t h2
  · exact tag_purpose_rel_valid tokens t h

/-- Every flip tag has in-range indices. -/
theorem tag_gerund_gerundive_flip_valid (tokens : List Token) (t : Tag)
    (ht : t ∈ tag_gerund_gerundive_flip tokens) : validTag tokens.length t := by
  unfold tag_gerund_gerundive_flip at ht
  rcases List.mem_append.mp ht with h | h
  · exact tag_flip_gerund_obj_valid tokens t h
  · exact tag_flip_ad_valid tokens t h

/-- C1 counterexample: on `tokensMarkerAfterVerb` the sentence driver emits
a cum-clause tag with `start = 2 > end = 0`, so the claimed invariant
`0 <= start <= end` fails as stated. -/
theorem c1_counterexample_start_exceeds_stop :
    ∃ t ∈ tagSentence tokensMarkerAfterVerb, t.stop < t.start := by decide

/-- C1 (amended): for every input sentence, every tag emitted by the
sentence driver (all detectors, deduplicated) has `start` and `end` that
are valid token positions, and every highlight-span index is a valid token
position; the ordering `start <= end` is not guaranteed. -/
theorem c1_all_tag_indices_in_range (tokens : List Token) (t : Tag)
    (ht : t ∈ tagSentence tokens) : validTag tokens.length t := by
  unfold tagSentence at ht
  have h := mem_dedup_tags t _ ht
  rcases List.mem_append.mp h with h' | h1
  case inr => exact tag_conditionals_valid tokens t h1
  rcases List.mem_append.mp h' with h' | h1
  case inr => exact tag_gerund_gerundive_flip_valid tokens t h1
  rcases List.mem_append.mp h' with h' | h1
  case inr => exact tag_gerunds_valid tokens t h1
  rcases List.mem_append.mp h' with h' | h1
  case inr => exact tag_relative_clauses_valid tokens t h1
  rcases List.mem_append.mp h' with h' | h1
  case inr => exact tag_purpose_clauses_valid tokens t h1
  rcases List.mem_append.mp h' with h' | h1
  case inr => exact tag_indirect_statements_valid tokens t h1
  rcases List.mem_append.mp h' with h1 | h1
  · exact tag_cum_clauses_valid tokens t h1
  · exact tag_ablative_absolutes_valid tokens t h1

/-- C1 witness: the amended theorem applied to the cum-clause scenario's
emitted tag. -/
theorem c1_all_tag_indices_in_range_witness :
    validTag tokensCumScenario.length
      { type := "cum_clause", start := 0, stop := 5, confidence := 90,
        trigger := [("cum_index", .vNat 0), ("verb_index", .vNat 5)] } :=
  c1_all_tag_indices_in_range tokensCumScenario _ (by decide)

/-- The `verbForm` component of a normalized signature always comes from the
predicate token itself, in every periphrastic branch. -/
theorem predicate_signature_verbForm (tokens : List Token)
    (children : List (List Nat)) (a : Nat) (ha : a < tokens.length) :
    (predicate_signature tokens children (some a)).verbForm =
      feats_get (featsOrEmpty (getTok tokens a).feats) "VerbForm" := by
  have hguard : (!decide (a < tokens.length)) = false := by simp [ha]
  unfold predicate_signature
  dsimp only
  rw [hguard]
  simp only [Bool.false_eq_true, if_false]
  split
  · split
    · split
      · rfl
      · split
        · rfl
        · rfl
    · rfl
  · rfl

/-- The classifier's "apodosis is an infinitive" test coincides with the
normalized signature's `verbForm` being `Inf`. -/
theorem is_infinitive_eq_sig (tokens : List Token) (children : List (List Nat))
    (a : Nat) (ha : a < tokens.length) :
    is_infinitive (getTok tokens a) =
      ((predicate_signature tokens children (some a)).verbForm == some "Inf") := by
  rw [predicate_signature_verbForm tokens children a ha]
  rfl

/-- Source's `classify_conditional` factors through `classifyOfData`: the label
depends only on predicate validity, the two normalized signatures, the
inferred infinitive time and the discourse string. -/
theorem classify_conditional_factors (tokens : List Token)
    (children : List (List Nat)) (pv ap : Option Nat) (d : Option Discourse) :
    classify_conditional tokens children pv ap d =
      classifyOfData (validOptIdx tokens pv)
        (predicate_signature tokens children pv)
        (validOptIdx tokens ap) (predicate_signature tokens children ap)
        (infer_infinitive_time tokens children ap) (discStr d) := by
  cases pv with
  | none => rfl
  | some pvv =>
    by_cases hpv : pvv < tokens.length
    · have hg1 : (!decide (pvv < tokens.length)) = false := by simp [hpv]
      cases ap with
      | none =>
        unfold classify_conditional classifyOfData
        dsimp only [validOptIdx]
        rw [hg1]
        rfl
      | some a =>
        by_cases ha : a < tokens.length
        · have hg2 : (!decide (a < tokens.length)) = false := by simp [ha]
          unfold classify_conditional classifyOfData
          dsimp only [validOptIdx, Option.getD]
          rw [hg1, hg2, is_infinitive_eq_sig tokens children a ha]
          rfl
        · have hg2 : (!decide (a < tokens.length)) = true := by simp [ha]
          unfold classify_conditional classifyOfData
          dsimp only [validOptIdx, Option.getD]
          rw [hg1, hg2]
          rfl
    · have hg1 : (!decide (pvv < tokens.length)) = true := by simp [hpv]
      unfold classify_conditional classifyOfData
      dsimp only [validOptIdx]
      rw [hg1]
      rfl

/-- C2 counterexample: two sentences with identical normalized protasis and
apodosis signatures and identical discourse receive different labels,
because an infinitival apodosis is additionally classified through
`infer_infinitive_time` ("fore" forces future time while a plain
infinitive defaults to present). -/
theorem c2_counterexample_infinitive_time_leaks :
    predicate_signature tokensInfPlain (build_children tokensInfPlain) (some 0) =
      predicate_signature tokensInfFore (build_children tokensInfFore) (some 0) ∧
    predicate_signature tokensInfPlain (build_children tokensInfPlain) (some 1) =
      predicate_signature tokensInfFore (build_children tokensInfFore) (some 1) ∧
    classify_conditional tokensInfPlain (build_children tokensInfPlain)
      (some 0) (some 1) (some discIndirect) = "mixed" ∧
    classify_conditional tokensInfFore (build_children tokensInfFore)
      (some 0) (some 1) (some discIndirect) = "future_more_vivid" := by decide

/-- C2 (amended): the conditional label is a pure function of the protasis
signature, the apodosis signature, predicate validity, the discourse
string, and — for an infinitival apodosis — the inferred infinitive time:
two configurations agreeing on all of these receive the same label. -/
theorem c2_amended_label_pure_function (toks1 : List Token)
    (ch1 : List (List Nat)) (pv1 ap1 : Option Nat) (d1 : Option Discourse)
    (toks2 : List Token) (ch2 : List (List Nat)) (pv2 ap2 : Option Nat)
    (d2 : Option Discourse)
    (hpv : validOptIdx toks1 pv1 = validOptIdx toks2 pv2)
    (hap : validOptIdx toks1 ap1 = validOptIdx toks2 ap2)
    (hsigp : predicate_signature toks1 ch1 pv1 = predicate_signature toks2 ch2 pv2)
    (hsiga : predicate_signature toks1 ch1 ap1 = predicate_signature toks2 ch2 ap2)
    (hinf : infer_infinitive_time toks1 ch1 ap1 = infer_infinitive_time toks2 ch2 ap2)
    (hd : discStr d1 = discStr d2) :
    classify_conditional toks1 ch1 pv1 ap1 d1 =
      classify_conditional toks2 ch2 pv2 ap2 d2 := by
  rw [classify_conditional_factors, classify_conditional_factors,
    hpv, hap, hsigp, hsiga, hinf, hd]

/-- C2 witness: the amended purity theorem applied at a concrete
configuration. -/
theorem c2_amended_label_pure_function_witness :
    classify_conditional tokensInfFore (build_children tokensInfFore)
        (some 0) (some 1) (some discIndirect) =
      classify_conditional tokensInfFore (build_children tokensInfFore)
        (some 0) (some 1) (some discIndirect) :=
  c2_amended_label_pure_function tokensInfFore (build_children tokensInfFore)
    (some 0) (some 1) (some discIndirect) tokensInfFore
    (build_children tokensInfFore) (some 0) (some 1) (some discIndirect)
    rfl rfl rfl rfl rfl rfl

/-- C3: the ablative-absolute detector is deterministic (a pure function of
the token list), and it fires only with full agreement data: every emitted
tag names a participle/noun pair whose Gender and Number are all four
present (truthy) and pairwise equal — so a pair missing any of the four
feature values never yields a tag. -/
theorem c3_abl_abs_requires_present_equal_agreement :
    (∀ tokens : List Token,
      tag_ablative_absolutes tokens = tag_ablative_absolutes tokens) ∧
    ∀ (tokens : List Token) (t : Tag), t ∈ tag_ablative_absolutes tokens →
      ∃ i c,
        t.trigger = [("part_index", .vNat i), ("abl_noun_index", .vNat c)] ∧
        c ∈ childGet (build_children tokens) i ∧
        truthyS (get_feat (featsOrEmpty (getTok tokens i).feats) "Gender") = true ∧
        truthyS (get_feat (featsOrEmpty (getTok tokens i).feats) "Number") = true ∧
        truthyS (get_feat (featsOrEmpty (getTok tokens c).feats) "Gender") = true ∧
        truthyS (get_feat (featsOrEmpty (getTok tokens c).feats) "Number") = true ∧
        get_feat (featsOrEmpty (getTok tokens i).feats) "Gender" =
          get_feat (featsOrEmpty (getTok tokens c).feats) "Gender" ∧
        get_feat (featsOrEmpty (getTok tokens i).feats) "Number" =
          get_feat (featsOrEmpty (getTok tokens c).feats) "Number" := by
  refine ⟨fun _ => rfl, ?_⟩
  intro tokens t ht
  simp only [tag_ablative_absolutes, List.mem_filterMap, List.mem_range] at ht
  obtain ⟨i, hi, hf⟩ := ht
  split at hf
  · exact Option.noConfusion hf
  · split at hf
    · exact Option.noConfusion hf
    · split at hf
      · exact Option.noConfusion hf
      · split at hf
        · exact Option.noConfusion hf
        · rename_i found_n heq
          have hmem := List.mem_of_find?_eq_some heq
          have hpred := List.find?_some heq
          simp only [Bool.and_eq_true, beq_iff_eq] at hpred
          obtain ⟨⟨⟨⟨⟨⟨⟨_, _⟩, hg1⟩, hn1⟩, hg2⟩, hn2⟩, hge⟩, hne⟩ := hpred
          injection hf with hf
          subst hf
          exact ⟨i, found_n, rfl, hmem, hg1, hn1, hg2, hn2, hge, hne⟩

/-- C3 witness: the agreement property instantiated on the "urbe capta"
example's emitted tag. -/
theorem c3_abl_abs_witness :
    ∃ i c,
      (Tag.mk "abl_abs" Option.none 0 1 [(1, 1), (0, 0)] Option.none 88
        [("part_index", .vNat 1), ("abl_noun_index", .vNat 0)] Option.none).trigger =
        [("part_index", .vNat i), ("abl_noun_index", .vNat c)] ∧
      c ∈ childGet (build_children tokensAblAbs) i ∧
      truthyS (get_feat (featsOrEmpty (getTok tokensAblAbs i).feats) "Gender") = true ∧
      truthyS (get_feat (featsOrEmpty (getTok tokensAblAbs i).feats) "Number") = true ∧
      truthyS (get_feat (featsOrEmpty (getTok tokensAblAbs c).feats) "Gender") = true ∧
      truthyS (get_feat (featsOrEmpty (getTok tokensAblAbs c).feats) "Number") = true ∧
      get_feat (featsOrEmpty (getTok tokensAblAbs i).feats) "Gender" =
        get_feat (featsOrEmpty (getTok tokensAblAbs c).feats) "Gender" ∧
      get_feat (featsOrEmpty (getTok tokensAblAbs i).feats) "Number" =
        get_feat (featsOrEmpty (getTok tokensAblAbs c).feats) "Number" :=
  c3_abl_abs_requires_present_equal_agreement.2 tokensAblAbs
    (Tag.mk "abl_abs" Option.none 0 1 [(1, 1), (0, 0)] Option.none 88
      [("part_index", .vNat 1), ("abl_noun_index", .vNat 0)] Option.none)
    (by decide)

/-- C4: for every token position, exactly one of `is_gerund`/`is_gerundive`
holds when the token is a future-passive-participle form, and neither holds
otherwise: their exclusive-or AND their disjunction both coincide with the
form test (the xor equation rules out "both" on form tokens, the
disjunction equation rules out "either" on non-form tokens). -/
theorem c4_gerund_gerundive_exclusive (tokens : List Token) (gi : Nat) :
    Bool.xor (is_gerund tokens gi) (is_gerundive tokens gi) =
      is_future_passive_participle (getTok tokens gi) ∧
    (is_gerund tokens gi || is_gerundive tokens gi) =
      is_future_passive_participle (getTok tokens gi) := by
  cases hfpp : is_future_passive_participle (getTok tokens gi) with
  | false =>
    have hg : is_gerund tokens gi = false := by
      simp [is_gerund, hfpp]
    have hgd : is_gerundive tokens gi = false := by
      simp [is_gerundive, hfpp]
    rw [hg, hgd]
    exact ⟨rfl, rfl⟩
  | true =>
    have hgd : is_gerundive tokens gi = !(is_gerund tokens gi) := by
      simp [is_gerundive, hfpp]
    rw [hgd]
    cases is_gerund tokens gi
    · exact ⟨rfl, rfl⟩
    · exact ⟨rfl, rfl⟩

/-- C5 counterexample: a copula ("est") whose participial children are a
bare participle first and a perfect passive participle second.  The pair
(copula, index 2) satisfies the claim's hypotheses — lemma "sum" and a
participial child with Voice=Pass, Aspect=Perf — yet the signature keeps
the copula's own tense and records no compound, because only the first
participial child is inspected. -/
theorem c5_counterexample_first_participle_shadows :
    (2 ∈ childGet (build_children tokensSumTwoParts) 0) ∧
    feats_get (featsOrEmpty (getTok tokensSumTwoParts 2).feats) "VerbForm" =
      some "Part" ∧
    feats_get (featsOrEmpty (getTok tokensSumTwoParts 2).feats) "Voice" =
      some "Pass" ∧
    feats_get (featsOrEmpty (getTok tokensSumTwoParts 2).feats) "Aspect" =
      some "Perf" ∧
    strLower ((getTok tokensSumTwoParts 0).lemma_.getD "") = "sum" ∧
    (getTok tokensSumTwoParts 0).upos = some "AUX" ∧
    (predicate_signature tokensSumTwoParts (build_children tokensSumTwoParts)
      (some 0)).compound = Option.none ∧
    (predicate_signature tokensSumTwoParts (build_children tokensSumTwoParts)
      (some 0)).tense = some "Pres" := by decide

/-- C5 (amended): for a predicate token whose lowercased lemma is "sum" or
"esse" and whose part of speech is AUX or VERB, when the FIRST participial
child in child order has Voice=Pass and Aspect=Perf, the normalized
signature reclassifies the tense from the copula's own tense (Pres to
Past, Past to Pqp, others unchanged), sets aspect Perf, and records the
perfect-passive-periphrastic compound; mood and verbForm still come from
the copula itself. -/
theorem c5_amended_perfect_passive_periphrastic (tokens : List Token)
    (children : List (List Nat)) (vi pi : Nat) (hvi : vi < tokens.length)
    (hlem : strLower ((getTok tokens vi).lemma_.getD "") = "sum" ∨
      strLower ((getTok tokens vi).lemma_.getD "") = "esse")
    (hupos : (getTok tokens vi).upos = some "AUX" ∨
      (getTok tokens vi).upos = some "VERB")
    (hfirst : (childGet children vi).find? (fun ci =>
        feats_get (featsOrEmpty (getTok tokens ci).feats) "VerbForm" == some "Part")
      = some pi)
    (hvoice : feats_get (featsOrEmpty (getTok tokens pi).feats) "Voice" = some "Pass")
    (hasp : feats_get (featsOrEmpty (getTok tokens pi).feats) "Aspect" = some "Perf") :
    predicate_signature tokens children (some vi) =
      { mood := get_mood (getTok tokens vi)
        tense :=
          if get_tense (getTok tokens vi) == some "Pres" then some "Past"
          else if get_tense (getTok tokens vi) == some "Past" then some "Pqp"
          else get_tense (getTok tokens vi)
        aspect := some "Perf"
        verbForm := get_verbform (getTok tokens vi)
        compound := some ⟨"perfect_passive_periphrastic", vi, pi⟩ } := by
  have hguard : (!decide (vi < tokens.length)) = false := by simp [hvi]
  have hcond : ((strLower ((getTok tokens vi).lemma_.getD "") == "sum" ||
      strLower ((getTok tokens vi).lemma_.getD "") == "esse") &&
      ((getTok tokens vi).upos == some "AUX" ||
        (getTok tokens vi).upos == some "VERB")) = true := by
    rcases hlem with h | h <;> rcases hupos with h2 | h2 <;> simp [h, h2]
  have hv1 : (feats_get (featsOrEmpty (getTok tokens pi).feats) "Voice"
      == some "Act") = false := by
    rw [hvoice]
    rfl
  have hv2 : (feats_get (featsOrEmpty (getTok tokens pi).feats) "Voice"
      == some "Pass") = true := by
    rw [hvoice]
    rfl
  have ha2 : (feats_get (featsOrEmpty (getTok tokens pi).feats) "Aspect"
      == some "Perf") = true := by
    rw [hasp]
    rfl
  unfold predicate_signature
  dsimp only
  rw [hguard]
  simp only [Bool.false_eq_true, if_false]
  rw [hcond]
  simp only [if_true]
  rw [hfirst]
  dsimp only
  rw [hv1, hv2, ha2]
  simp only [Bool.false_and, Bool.false_eq_true, if_false, Bool.and_self, if_true]

/-- C5 witness: the amended theorem applied to "factus est". -/
theorem c5_amended_perfect_passive_periphrastic_witness :
    predicate_signature tokensSumPPP (build_children tokensSumPPP) (some 0) =
      { mood := get_mood (getTok tokensSumPPP 0)
        tense :=
          if get_tense (getTok tokensSumPPP 0) == some "Pres" then some "Past"
          else if get_tense (getTok tokensSumPPP 0) == some "Past" then some "Pqp"
          else get_tense (getTok tokensSumPPP 0)
        aspect := some "Perf"
        verbForm := get_verbform (getTok tokensSumPPP 0)
        compound := some ⟨"perfect_passive_periphrastic", 0, 1⟩ } :=
  c5_amended_perfect_passive_periphrastic tokensSumPPP
    (build_children tokensSumPPP) 0 1 (by decide) (Or.inl (by decide))
    (Or.inl (by decide)) (by decide) (by decide) (by decide)

/-- C6: under direct discourse with a finite apodosis and both signatures
subjunctive, the label follows the four-row table (both present gives
future-less-vivid, both imperfect gives present-contrafactual, both
pluperfect-like gives past-contrafactual, otherwise mixed-subjunctive);
and the worked "si id fecisset, eum punivisset" scenario yields a
protasis/apodosis tag pair both labeled past_contrafactual. -/
theorem c6_direct_subjunctive_table_and_scenario :
    (∀ (tokens : List Token) (children : List (List Nat)) (pv ap : Nat)
      (d : Option Discourse),
      pv < tokens.length → ap < tokens.length →
      discStr d = "direct" →
      is_infinitive (getTok tokens ap) = false →
      (predicate_signature tokens children (some pv)).mood = some "Sub" →
      (predicate_signature tokens children (some ap)).mood = some "Sub" →
      classify_conditional tokens children (some pv) (some ap) d =
        (if (predicate_signature tokens children (some pv)).tense == some "Pres" &&
            (predicate_signature tokens children (some ap)).tense == some "Pres" then
          "future_less_vivid"
        else if ((predicate_signature tokens children (some pv)).tense == some "Past" &&
              (predicate_signature tokens children (some pv)).aspect == some "Imp") &&
            ((predicate_signature tokens children (some ap)).tense == some "Past" &&
              (predicate_signature tokens children (some ap)).aspect == some "Imp") then
          "present_contrafactual"
        else if ((predicate_signature tokens children (some pv)).tense == some "Pqp" ||
              (predicate_signature tokens children (some pv)).aspect == some "Perf") &&
            ((predicate_signature tokens children (some ap)).tense == some "Pqp" ||
              (predicate_signature tokens children (some ap)).aspect == some "Perf") then
          "past_contrafactual"
        else "mixed_subjunctive")) ∧
    (tag_conditionals tokensCondScenario).map (fun t => (t.type, t.subtype)) =
      [("conditional_protasis", some "past_contrafactual"),
       ("conditional_apodosis", some "past_contrafactual")] := by
  constructor
  · intro tokens children pv ap d hpv hap hd hinf hm ham
    rw [classify_conditional_factors]
    have hpo : validOptIdx tokens (some pv) = true := by simp [validOptIdx, hpv]
    have hao : validOptIdx tokens (some ap) = true := by simp [validOptIdx, hap]
    have hvf : ((predicate_signature tokens children (some ap)).verbForm
        == some "Inf") = false := by
      rw [← is_infinitive_eq_sig tokens children ap hap, hinf]
    unfold classifyOfData
    rw [hpo, hao]
    dsimp only
    rw [hvf, hd, hm, ham]
    have e1 : ((some "Sub" : Option String) == some "Ind") = false := rfl
    have e2 : ((some "Sub" : Option String) == some "Sub") = true := rfl
    have e3 : (("direct" : String) == "direct") = true := rfl
    simp only [Bool.not_true, Bool.false_eq_true, if_false, e1, e2, e3,
      Bool.false_and, Bool.and_false, Bool.true_and, Bool.and_true, if_true]
  · decide

/-- C6 witness: the table instantiated on the worked scenario's verb pair
(both pluperfect subjunctive, direct discourse) gives past_contrafactual. -/
theorem c6_direct_subjunctive_table_witness :
    classify_conditional tokensCondScenario (build_children tokensCondScenario)
      (some 2) (some 5)
      (some { statement := "direct", sequence := Option.none,
              head_verb_index := Option.none, head_verb_tense := Option.none,
              discourse := "direct", reason := "default_direct" })
      = "past_contrafactual" := by
  rw [c6_direct_subjunctive_table_and_scenario.1 tokensCondScenario
    (build_children tokensCondScenario) 2 5 _ (by decide) (by decide)
    (by decide) (by decide) (by decide) (by decide)]
  decide

/-- C7: on the worked cum-clause token sequence ("cum" at index 0, SCONJ,
head 6; finite subjunctive "venisset" at index 5; no strong boundary
between), the detector emits exactly one cum_clause tag whose trigger has
cum_index 0 and verb_index 5. -/
theorem c7_cum_clause_worked_scenario :
    tag_cum_clauses tokensCumScenario =
      [{ type := "cum_clause", start := 0, stop := 5, confidence := 90,
         trigger := [("cum_index", .vNat 0), ("verb_index", .vNat 5)] }] := by
  decide

/-- Association lookup misses when the key is absent from the key list. -/
theorem lookup_eq_none_of_not_contains (key : String) :
    ∀ m : List (String × String), (m.map Prod.fst).contains key = false →
      m.lookup key = Option.none := by
  intro m
  induction m with
  | nil => intro _; rfl
  | cons kv t ih =>
    intro h
    cases kv with
    | mk k v =>
      simp only [List.map_cons, List.contains_cons, Bool.or_eq_false_iff] at h
      unfold List.lookup
      rw [h.1]
      exact ih h.2

/-- C8: the feature accessor is total and fails softly: an absent bag
(`None`, empty string, empty dictionary), a non-dictionary encoding, or an
absent key all yield "unspecified" (`none`), never an error; and
`feats_has` is exactly the equality test on `feats_get`. -/
theorem c8_feats_accessor_total :
    (∀ key, feats_get Feats.fnone key = Option.none) ∧
    (∀ key, feats_get (Feats.fstr "") key = Option.none) ∧
    (∀ key, feats_get (Feats.fdict []) key = Option.none) ∧
    (∀ key l, feats_get (Feats.flist l) key = Option.none) ∧
    (∀ key (m : List (String × String)), (m.map Prod.fst).contains key = false →
      feats_get (Feats.fdict m) key = Option.none) ∧
    (∀ f key value, feats_has f key value = (feats_get f key == some value)) := by
  refine ⟨fun key => rfl, fun key => rfl, fun key => rfl, ?_, ?_,
    fun f k v => rfl⟩
  · intro key l
    unfold feats_get
    split
    · rfl
    · rfl
  · intro key m hkey
    unfold feats_get
    split
    · rfl
    · exact lookup_eq_none_of_not_contains key m hkey

/-- C8 witness: a token bag missing the queried key yields "unspecified". -/
theorem c8_feats_accessor_total_witness :
    feats_get (Feats.fdict [("Case", "Abl")]) "Mood" = Option.none :=
  c8_feats_accessor_total.2.2.2.2.1 "Mood" [("Case", "Abl")] (by decide)

/-- The depth-first traversal loop reaches its result in finitely many
iterations: some fuel budget suffices, and the fuelled loop agrees with
`in_subtreeAux`. -/
theorem in_subtreeAux_reaches (children : List (List Nat)) (query : Nat) :
    ∀ stack seen, ∃ fuel b,
      in_subtreeFuel children query fuel stack seen = some b ∧
      in_subtreeAux children query stack seen = b := by
  intro stack seen
  induction stack, seen using in_subtreeAux.induct children query with
  | case1 seen =>
    refine ⟨1, false, rfl, ?_⟩
    simp [in_subtreeAux]
  | case2 rest seen =>
    refine ⟨1, true, ?_, ?_⟩
    · simp [in_subtreeFuel]
    · simp [in_subtreeAux]
  | case3 cur rest seen hne hseen ih =>
    obtain ⟨fuel, b, h1, h2⟩ := ih
    have hmem : cur ∈ seen := by simpa using hseen
    refine ⟨fuel + 1, b, ?_, ?_⟩
    · simp [in_subtreeFuel, hne, hmem, h1]
    · simp [in_subtreeAux, hne, hmem, h2]
  | case4 cur rest seen hne hseen ih =>
    obtain ⟨fuel, b, h1, h2⟩ := ih
    have hmem : cur ∉ seen := by simpa using hseen
    refine ⟨fuel + 1, b, ?_, ?_⟩
    · simp [in_subtreeFuel, hne, hmem, h1]
    · simp [in_subtreeAux, hne, hmem, h2]

/-- C9: `in_subtree` terminates on every input, including cyclic or
self-looping head graphs: for the children adjacency built by
`build_children` from arbitrary head values and any root/query indices,
the iterative depth-first traversal with its visited set reaches a result
within a finite fuel budget, and that result is `in_subtree`'s value. -/
theorem c9_in_subtree_terminates (tokens : List Token) (root query : Nat) :
    ∃ fuel b,
      in_subtreeFuel (build_children tokens) query fuel [root] [] = some b ∧
      in_subtree tokens (build_children tokens) root query = b := by
  obtain ⟨fuel, b, h1, h2⟩ :=
    in_subtreeAux_reaches (build_children tokens) query [root] []
  exact ⟨fuel, b, h1, h2⟩

/-- C10: a VERB or AUX token with no VerbForm annotation counts as a finite
verb; consequently detectors requiring a finite verb can fire on such
tokens — the cum-clause detector tags the VerbForm-less "venisset"
scenario, and such a token is an apodosis candidate in
`pick_apodosis`. -/
theorem c10_missing_verbform_is_finite :
    (∀ tok : Token, (tok.upos = some "VERB" ∨ tok.upos = some "AUX") →
      feats_get (featsOrEmpty tok.feats) "VerbForm" = Option.none →
      is_finite_verb tok = true) ∧
    tag_cum_clauses tokensCumNoVerbForm =
      [{ type := "cum_clause", start := 0, stop := 2, confidence := 90,
         trigger := [("cum_index", .vNat 0), ("verb_index", .vNat 2)] }] ∧
    apodosis_candidate
      { upos := some "VERB", feats := Feats.fdict [("Mood", "Sub")] } = true := by
  refine ⟨?_, by decide, by decide⟩
  intro tok hupos hvf
  unfold is_finite_verb
  rcases hupos with h | h <;> simp [h, hvf]

/-- C10 witness: the finite-verb rule applied to the VerbForm-less verb of
the scenario sentence. -/
theorem c10_missing_verbform_is_finite_witness :
    is_finite_verb (getTok tokensCumNoVerbForm 2) = true :=
  c10_missing_verbform_is_finite.1 (getTok tokensCumNoVerbForm 2)
    (Or.inl (by decide)) (by decide)
